import Mathlib

/-!
Shallow embedding of `pyblish/util.py` (the staged publishing orchestrator of
pyblish-base): `_convenience_iter`, `_process_plugins`, `publish_iter` and
`publish`, together with the external collaborators they consume, modelled from
the specification where their code is not part of the sources (the modules
`api`, `lib`, `logic` and `plugin` are external collaborators here; only
`util.py` is source).

Conventions of the embedding:
* plugin orders are rationals (the spec calls them real numbers);
* the lazy generator is embedded as the finite list of items it produces:
  yielded result records, emitted checkpoints, and diagnostic prints;
* Python exception propagation is embedded with `Except`: the plugin execution
  oracle may return `Except.error`, which aborts the run exactly where the
  exception would propagate out of the generator (no `try/finally` exists in
  the source), carrying the items produced so far;
* the process-wide target registry is a `Finset String` threaded through the
  run explicitly.
-/

namespace Pyblish

/-- Modelled from the spec: the Stage Boundary Registry defines four named
order constants, the canonical centers of the Collect, Validate, Extract and
Integrate stages. -/
def CollectorOrder : ℚ := 0

/-- Modelled from the spec: canonical center of the Validate stage. -/
def ValidatorOrder : ℚ := 1

/-- Modelled from the spec: canonical center of the Extract stage. -/
def ExtractorOrder : ℚ := 2

/-- Modelled from the spec: canonical center of the Integrate stage. -/
def IntegratorOrder : ℚ := 3

/-- Modelled from the spec: the Stage Boundary Registry's range-membership
test `InRange(order, boundary)`; the band associated with a boundary is the
half-unit half-open interval centered at it (`lib.inrange` with its default
half-unit offset). -/
def inrange (number base : ℚ) : Bool :=
  decide (2 * base.num * (number.den : ℤ) ≤
      2 * number.num * (base.den : ℤ) + (base.den : ℤ) * (number.den : ℤ) ∧
    2 * number.num * (base.den : ℤ) <
      2 * base.num * (number.den : ℤ) + (base.den : ℤ) * (number.den : ℤ))

/-- A plugin as `util.py` observes it: a name (identity), a numeric `order`
and an `active` flag. -/
structure Plugin where
  name : String
  order : ℚ
  active : Bool
deriving DecidableEq, Repr

/-- The mutable scheduling state dictionary of `_convenience_iter`
(`{"nextOrder": None, "ordersWithError": set()}`). `nextOrder` is written
only by the external Pairing Iterator, so it stays untouched here. -/
structure SchedState where
  nextOrder : Option ℚ
  ordersWithError : Finset ℚ
deriving DecidableEq

/-- The progress dictionary of `_convenience_iter`
(`{"current": 0, "total": len(plugins)}`); Python integers, so `ℤ`. -/
structure Progress where
  current : ℤ
  total : ℤ
deriving DecidableEq, Repr

/-- A result record as yielded by `_process_plugins`: the record returned by
the Plugin Execution Service (plugin identity, target identity or none, error
or absent) enriched with the `progress` fraction attached at the yield. -/
structure ResultRec (Inst E : Type) where
  plug : Plugin
  inst : Option Inst
  error : Option E
  progress : ℚ
deriving DecidableEq

/-- One observable item of a run, in order of production: a yielded result
record, a checkpoint emitted on the Event Bus (`api.emit(name, context)`),
or a diagnostic `print(error)`. -/
inductive Item (Ctx Inst E : Type) where
  | result (r : ResultRec Inst E)
  | checkpoint (name : String) (ctx : Option Ctx)
  | printed (e : E)
deriving DecidableEq

/-- The yielded result records of an item trace, in order. -/
def resultsOf {Ctx Inst E : Type} (items : List (Item Ctx Inst E)) :
    List (ResultRec Inst E) :=
  items.filterMap fun it =>
    match it with
    | .result r => some r
    | _ => none

/-- The checkpoints of an item trace, in order, with their payloads. -/
def checkpointsOf {Ctx Inst E : Type} (items : List (Item Ctx Inst E)) :
    List (String × Option Ctx) :=
  items.filterMap fun it =>
    match it with
    | .checkpoint n c => some (n, c)
    | _ => none

/-- Output of the pair-processing loop of `_process_plugins` (the `for` over
`logic.Iterator`): items produced, the `processed_plugins` set, the
`actual_plugins_count`, the scheduling and progress state, and the fatal
exception if one propagated. -/
structure PairsOut (Ctx Inst E F : Type) where
  items : List (Item Ctx Inst E)
  processed : Finset Plugin
  actual : ℤ
  state : SchedState
  progress : Progress
  fatal : Option F
deriving DecidableEq

/-- Output of one bucket (`_process_plugins`) or of a sequence of stages. -/
structure StageOut (Ctx Inst E F : Type) where
  items : List (Item Ctx Inst E)
  state : SchedState
  progress : Progress
  fatal : Option F
deriving DecidableEq

/-- Output of a whole `_convenience_iter` / `publish_iter` run: the item
trace, the final target registry, the final scheduling and progress state,
and the fatal exception if one propagated out of the generator. -/
structure RunOut (Ctx Inst E F : Type) where
  items : List (Item Ctx Inst E)
  registry : Finset String
  state : SchedState
  progress : Progress
  fatal : Option F
deriving DecidableEq

/-- The body of the `for plug, instance in logic.Iterator(...)` loop of
`_process_plugins`, over the realized pair sequence. `err` is the Plugin
Execution Service oracle (`plugin.process`): it returns the error field of
the result record, or `Except.error` for an exception that propagates (the
spec's contract says it never raises; Python still can). Progress is counted
once per distinct plugin, the order of an errored plugin is recorded in
`ordersWithError`, the error is printed, and the record is yielded with the
fraction `current / total` attached. (The division is `ℚ` division; a pair
can only exist for a nonempty bucket, whose run has `total > 0`.) -/
def processPairs {Ctx Inst E F : Type}
    (err : Plugin → Ctx → Option Inst → Except F (Option E)) (ctx : Ctx) :
    List (Plugin × Option Inst) → Finset Plugin → ℤ → SchedState → Progress →
    PairsOut Ctx Inst E F
  | [], processed, actual, state, progress =>
      ⟨[], processed, actual, state, progress, none⟩
  | (plug, inst) :: rest, processed, actual, state, progress =>
      let processed1 := if plug ∈ processed then processed else insert plug processed
      let actual1 := if plug ∈ processed then actual else actual + 1
      let progress1 :=
        if plug ∈ processed then progress
        else { progress with current := progress.current + 1 }
      match err plug ctx inst with
      | .error f => ⟨[], processed1, actual1, state, progress1, some f⟩
      | .ok e =>
        let state1 :=
          if e.isSome then
            { state with ordersWithError := insert plug.order state.ordersWithError }
          else state
        let printItems : List (Item Ctx Inst E) :=
          match e with
          | some v => [Item.printed v]
          | none => []
        let r : ResultRec Inst E :=
          ⟨plug, inst, e, (progress1.current : ℚ) / (progress1.total : ℚ)⟩
        let outRest := processPairs err ctx rest processed1 actual1 state1 progress1
        ⟨printItems ++ Item.result r :: outRest.items, outRest.processed,
         outRest.actual, outRest.state, outRest.progress, outRest.fatal⟩

/-- Embeds `_process_plugins(context, plugins, state, progress)`. The external
Pairing Iterator (`logic.Iterator`) is modelled from the spec as an oracle
`pairsOf` giving the realized (plugin, target-or-none) pair sequence for a
bucket. After the loop the shortfall between the bucket's declared size and
the distinct plugins actually seen is added to `current`; if an exception
propagated from the loop, that line never runs. -/
def processPlugins {Ctx Inst E F : Type}
    (err : Plugin → Ctx → Option Inst → Except F (Option E))
    (pairsOf : List Plugin → List (Plugin × Option Inst))
    (ctx : Ctx) (plugins : List Plugin) (state : SchedState)
    (progress : Progress) : StageOut Ctx Inst E F :=
  let expected : ℤ := plugins.length
  let out := processPairs err ctx (pairsOf plugins) ∅ 0 state progress
  match out.fatal with
  | some f => ⟨out.items, out.state, out.progress, some f⟩
  | none =>
      ⟨out.items, out.state,
       { out.progress with current := out.progress.current + (expected - out.actual) },
       none⟩

/-- The six bucket-membership predicates of `_convenience_iter`, applied to
the already active/orders-filtered plugin list. Pre-collectors:
`plug.order < api.CollectorOrder and not lib.inrange(plug.order, api.CollectorOrder)`. -/
def precollectFilter (p : Plugin) : Bool :=
  decide (p.order < CollectorOrder) && !(inrange p.order CollectorOrder)

/-- Collectors: `lib.inrange(plug.order, api.CollectorOrder)`. -/
def collectFilter (p : Plugin) : Bool :=
  inrange p.order CollectorOrder

/-- Validators: `lib.inrange(plug.order, api.ValidatorOrder)`. -/
def validateFilter (p : Plugin) : Bool :=
  inrange p.order ValidatorOrder

/-- Extractors: `lib.inrange(plug.order, api.ExtractorOrder)`. -/
def extractFilter (p : Plugin) : Bool :=
  inrange p.order ExtractorOrder

/-- Integrators: `lib.inrange(plug.order, api.IntegratorOrder)`. -/
def integrateFilter (p : Plugin) : Bool :=
  inrange p.order IntegratorOrder

/-- Post-integrators: `plug.order > api.IntegratorOrder and not
lib.inrange(plug.order, api.IntegratorOrder)`. -/
def postintegrateFilter (p : Plugin) : Bool :=
  decide (p.order > IntegratorOrder) && !(inrange p.order IntegratorOrder)

/-- Line 115: `plugins = list(plug for plug in plugins if plug.active)`. -/
def activePlugins (plugins : List Plugin) : List Plugin :=
  plugins.filter (·.active)

/-- Lines 118-122: `if orders: plugins = list(plug for plug in plugins if
any(lib.inrange(plug.order, order) for order in orders))`. An absent or empty
`orders` argument is the empty list. -/
def ordersFiltered (plugins : List Plugin) (orders : List ℚ) : List Plugin :=
  if orders.isEmpty then plugins
  else plugins.filter (fun p => orders.any (fun o => inrange p.order o))

/-- The gate of a named stage: `not orders or boundary in orders`. -/
def stageGate (orders : List ℚ) (boundary : ℚ) : Bool :=
  orders.isEmpty || decide (boundary ∈ orders)

/-- One stage of the fixed six-stage sequence of `_convenience_iter`: its
bucket, whether its processing is gated in, and the checkpoint it emits. -/
structure Stage where
  bucket : List Plugin
  gate : Bool
  checkpoint : Option String
deriving DecidableEq

/-- The fixed six-stage sequence of `_convenience_iter`, in source order:
pre-collectors and post-integrators are processed unconditionally and emit
no checkpoint; the four named stages are gated on `orders` and emit their
checkpoint after processing. -/
def stagesOf (plugins : List Plugin) (orders : List ℚ) : List Stage :=
  [⟨plugins.filter precollectFilter, true, none⟩,
   ⟨plugins.filter collectFilter, stageGate orders CollectorOrder, some "collected"⟩,
   ⟨plugins.filter validateFilter, stageGate orders ValidatorOrder, some "validated"⟩,
   ⟨plugins.filter extractFilter, stageGate orders ExtractorOrder, some "extracted"⟩,
   ⟨plugins.filter integrateFilter, stageGate orders IntegratorOrder, some "integrated"⟩,
   ⟨plugins.filter postintegrateFilter, true, none⟩]

/-- Runs the stage sequence of `_convenience_iter`: a gated-out stage is
skipped entirely (no processing, no checkpoint); a gated-in stage is
processed and, unless an exception propagated from it, its checkpoint is
emitted with the processed context and the run continues. -/
def runStages {Ctx Inst E F : Type}
    (err : Plugin → Ctx → Option Inst → Except F (Option E))
    (pairsOf : List Plugin → List (Plugin × Option Inst)) (ctx : Ctx) :
    List Stage → SchedState → Progress → StageOut Ctx Inst E F
  | [], state, progress => ⟨[], state, progress, none⟩
  | stage :: rest, state, progress =>
      if stage.gate then
        let out := processPlugins err pairsOf ctx stage.bucket state progress
        match out.fatal with
        | some f => ⟨out.items, out.state, out.progress, some f⟩
        | none =>
          let cpItems : List (Item Ctx Inst E) :=
            match stage.checkpoint with
            | some n => [Item.checkpoint n (some ctx)]
            | none => []
          let outRest := runStages err pairsOf ctx rest out.state out.progress
          ⟨out.items ++ cpItems ++ outRest.items, outRest.state,
           outRest.progress, outRest.fatal⟩
      else
        runStages err pairsOf ctx rest state progress

/-- Embeds `_convenience_iter(context, plugins, targets, orders)`. The
external collaborators are parameters: `err` the Plugin Execution Service,
`pairsOf` the Pairing Iterator, `freshCtx` the context `api.Context()`
allocates when the caller passes none, `registry0` the process-wide target
registry at entry (`api.registered_targets()` snapshots it; registration is
idempotent). The caller-supplied plugin list stands for `api.discover()`
when the caller passes none. After the last stage every requested target
not registered before the run is deregistered — but only if no exception
propagated (the source has no `try/finally`). -/
def convenienceIter {Ctx Inst E F : Type}
    (err : Plugin → Ctx → Option Inst → Except F (Option E))
    (pairsOf : List Plugin → List (Plugin × Option Inst))
    (freshCtx : Ctx) (context : Option Ctx) (plugins : List Plugin)
    (targets : List String) (orders : List ℚ)
    (registry0 : Finset String) : RunOut Ctx Inst E F :=
  let targets := if targets.isEmpty then ["default"] else targets
  let registeredTargets := registry0
  let ctx := context.getD freshCtx
  let registry := targets.foldl (fun r t => insert t r) registry0
  let state : SchedState := ⟨none, ∅⟩
  let survivors := ordersFiltered (activePlugins plugins) orders
  let progress : Progress := ⟨0, (survivors.length : ℤ)⟩
  let out := runStages err pairsOf ctx (stagesOf survivors orders) state progress
  match out.fatal with
  | some f => ⟨out.items, registry, out.state, out.progress, some f⟩
  | none =>
      let registry := targets.foldl
        (fun r t => if t ∈ registeredTargets then r else r.erase t) registry
      ⟨out.items, registry, out.state, out.progress, none⟩

/-- Embeds `publish_iter`: drives `_convenience_iter` to exhaustion and then
emits the `published` checkpoint with its own (unresolved) `context`
argument; if an exception propagated out of `_convenience_iter`, it
propagates further and `published` is never emitted. -/
def publishIter {Ctx Inst E F : Type}
    (err : Plugin → Ctx → Option Inst → Except F (Option E))
    (pairsOf : List Plugin → List (Plugin × Option Inst))
    (freshCtx : Ctx) (context : Option Ctx) (plugins : List Plugin)
    (targets : List String) (orders : List ℚ)
    (registry0 : Finset String) : RunOut Ctx Inst E F :=
  let out := convenienceIter err pairsOf freshCtx context plugins targets orders registry0
  match out.fatal with
  | some _ => out
  | none => { out with items := out.items ++ [Item.checkpoint "published" context] }

/-- Embeds `publish`: resolves the context eagerly
(`context if context is not None else api.Context()`) and drains
`publish_iter` over the resolved context. -/
def publish {Ctx Inst E F : Type}
    (err : Plugin → Ctx → Option Inst → Except F (Option E))
    (pairsOf : List Plugin → List (Plugin × Option Inst))
    (freshCtx : Ctx) (context : Option Ctx) (plugins : List Plugin)
    (targets : List String) (orders : List ℚ)
    (registry0 : Finset String) : RunOut Ctx Inst E F :=
  let ctx := context.getD freshCtx
  publishIter err pairsOf freshCtx (some ctx) plugins targets orders registry0

/-- The Pairing Iterator contract the orchestrator relies on: every pair the
iterator yields for a bucket pairs a plugin of that bucket with a target. -/
def PairsValid (pairsOf : List Plugin → List (Plugin × Option Inst)) : Prop :=
  ∀ (bucket : List Plugin) (pr : Plugin × Option Inst),
    pr ∈ pairsOf bucket → pr.1 ∈ bucket

/-- An infallible Plugin Execution Service built from an error-field oracle:
the spec's contract (`Execute` never raises uncaught; failure is communicated
via the result's error field). -/
def okOracle {Ctx Inst E F : Type}
    (f : Plugin → Ctx → Option Inst → Option E) :
    Plugin → Ctx → Option Inst → Except F (Option E) :=
  fun p c i => Except.ok (f p c i)

/-- The canonical full fan-out pairing: each plugin of the bucket once, as a
whole-context plugin (no target instance). -/
def canonicalPairs {Inst : Type} :
    List Plugin → List (Plugin × Option Inst) :=
  fun bucket => bucket.map (fun p => (p, none))

/-- The four named stage boundaries, as the boundary-subset arguments range
over them. -/
def namedOrders : List ℚ :=
  [CollectorOrder, ValidatorOrder, ExtractorOrder, IntegratorOrder]

/-- Non-decreasing fractions with a common denominator `total` and integer
numerators confined to `[lo, hi]`: the shape of the progress fractions one
bucket (or one stage sequence) emits. -/
def FracBounds (lo hi total : ℤ) (l : List ℚ) : Prop :=
  List.Chain' (· ≤ ·) l ∧
    ∀ f ∈ l, ∃ c : ℤ, f = (c : ℚ) / (total : ℚ) ∧ lo ≤ c ∧ c ≤ hi

/-- A Plugin Execution Service that reports no plugin-level error, for
concrete runs. -/
def noErr : Plugin → Bool → Option Bool → Option Bool :=
  fun _ _ _ => none

/-- A Plugin Execution Service whose first invocation raises an
unrecoverable exception, for concrete runs. -/
def fatalOracle : Plugin → Bool → Option Bool → Except Bool (Option Bool) :=
  fun _ _ _ => Except.error true

/-- A concrete active pre-collect plugin: its order lies below the Collect
band. -/
def pPre : Plugin := ⟨"pre", -2, true⟩

/-- A concrete active collector plugin at the Collect boundary. -/
def pCol : Plugin := ⟨"col", 0, true⟩

/-- A concrete active validator plugin at the Validate boundary whose
execution reports an error. -/
def pBad : Plugin := ⟨"bad", 1, true⟩

/-- A concrete inactive plugin at the Validate boundary. -/
def pOff : Plugin := ⟨"off", 1, false⟩

/-- A Plugin Execution Service that reports an error exactly for `pBad`,
for concrete runs. -/
def badErr : Plugin → Bool → Option Bool → Option Bool :=
  fun p _ _ => if p.name = "bad" then some true else none

/-- The `progress` fractions attached to the yielded result records of an
item trace, in yield order. -/
def progressFracs {Ctx Inst E : Type} (items : List (Item Ctx Inst E)) : List ℚ :=
  (resultsOf items).map (fun r => r.progress)

/-- Total size of the buckets of the gated-in stages of a stage list: the
amount `current` advances over those stages. -/
def gatedLength (ss : List Stage) : ℕ :=
  ((ss.filter (fun s => s.gate)).map (fun s => s.bucket.length)).sum

/-- The checkpoint emissions a stage list performs when no exception
propagates: one per gated-in stage that declares a checkpoint, in order,
with the processed context as payload. -/
def gatedCheckpoints {Ctx : Type} (ss : List Stage) (ctx : Ctx) :
    List (String × Option Ctx) :=
  (ss.filter (fun s => s.gate)).filterMap
    (fun s => s.checkpoint.map (fun n => (n, some ctx)))

/-- The pair sequences a stage list feeds to the Plugin Execution Service
when no exception propagates: the Pairing Iterator's output for each
gated-in bucket, concatenated in stage order. -/
def gatedPairs {Inst : Type}
    (pairsOf : List Plugin → List (Plugin × Option Inst)) (ss : List Stage) :
    List (Plugin × Option Inst) :=
  (ss.filter (fun s => s.gate)).flatMap (fun s => pairsOf s.bucket)

/-- Bookkeeping invariant of the pair-processing loop, relative to the
bucket's plugin set `B` and the entry values of the tracking variables:
the processed set grows inside `B`, `actual_plugins_count` counts it,
`total` is untouched, `current` advances by exactly the newly counted
plugins, `ordersWithError` only grows, and the attached fractions are
non-decreasing with numerators confined to the `current` values traversed. -/
def PairsOutSpec {Ctx Inst E F : Type} (B processed : Finset Plugin)
    (actual : ℤ) (state : SchedState) (progress : Progress)
    (out : PairsOut Ctx Inst E F) : Prop :=
  out.processed ⊆ B ∧
  processed ⊆ out.processed ∧
  out.actual = (out.processed.card : ℤ) ∧
  out.progress.total = progress.total ∧
  out.progress.current = progress.current + (out.actual - actual) ∧
  state.ordersWithError ⊆ out.state.ordersWithError ∧
  FracBounds progress.current out.progress.current progress.total
    (progressFracs out.items)

end Pyblish

namespace Pyblish

theorem inrange_iff {x b : ℚ} : inrange x b = true ↔ b - 1/2 ≤ x ∧ x < b + 1/2 := by
  rw [inrange, decide_eq_true_eq]
  have hxd : (0 : ℚ) < (x.den : ℚ) := by exact_mod_cast x.den_pos
  have hbd : (0 : ℚ) < (b.den : ℚ) := by exact_mod_cast b.den_pos
  have hxnum : (x.num : ℚ) = x * (x.den : ℚ) :=
    (div_eq_iff (ne_of_gt hxd)).mp (Rat.num_div_den x)
  have hbnum : (b.num : ℚ) = b * (b.den : ℚ) :=
    (div_eq_iff (ne_of_gt hbd)).mp (Rat.num_div_den b)
  constructor
  · rintro ⟨h1, h2⟩
    have h1q : (2 : ℚ) * b.num * x.den ≤ 2 * x.num * b.den + b.den * x.den := by
      exact_mod_cast h1
    have h2q : (2 : ℚ) * x.num * b.den < 2 * b.num * x.den + b.den * x.den := by
      exact_mod_cast h2
    rw [hxnum, hbnum] at h1q h2q
    constructor
    · nlinarith [h1q, hxd, hbd, mul_pos hxd hbd]
    · nlinarith [h2q, hxd, hbd, mul_pos hxd hbd]
  · rintro ⟨h1, h2⟩
    constructor
    · have h1q : (2 : ℚ) * (b * b.den) * x.den ≤
          2 * (x * x.den) * b.den + b.den * x.den := by
        nlinarith [h1, hxd, hbd, mul_pos hxd hbd]
      rw [← hxnum, ← hbnum] at h1q
      exact_mod_cast h1q
    · have h2q : (2 : ℚ) * (x * x.den) * b.den <
          2 * (b * b.den) * x.den + b.den * x.den := by
        nlinarith [h2, hxd, hbd, mul_pos hxd hbd]
      rw [← hxnum, ← hbnum] at h2q
      exact_mod_cast h2q

theorem bool_eq_false {b : Bool} (h : ¬b = true) : b = false := by
  cases b
  · rfl
  · exact absurd rfl h

theorem precollectFilter_iff {p : Plugin} :
    precollectFilter p = true ↔ p.order < -(1/2 : ℚ) := by
  simp only [precollectFilter, Bool.and_eq_true, Bool.not_eq_true',
    decide_eq_true_eq]
  constructor
  · rintro ⟨h1, h2⟩
    by_contra hc
    push_neg at hc
    have h1' : p.order < (0 : ℚ) := h1
    have hir : inrange p.order CollectorOrder = true := by
      rw [inrange_iff]
      unfold CollectorOrder
      exact ⟨by linarith, by linarith⟩
    rw [hir] at h2
    exact absurd h2 (by simp)
  · intro h
    have h0 : p.order < CollectorOrder := by
      show p.order < (0 : ℚ)
      linarith
    refine ⟨h0, bool_eq_false ?_⟩
    intro hc
    have h2' : CollectorOrder - 1/2 ≤ p.order := (inrange_iff.mp hc).1
    have h2'' : (0 : ℚ) - 1/2 ≤ p.order := h2'
    linarith

theorem collectFilter_iff {p : Plugin} :
    collectFilter p = true ↔ -(1/2 : ℚ) ≤ p.order ∧ p.order < 1/2 := by
  unfold collectFilter
  rw [inrange_iff]
  unfold CollectorOrder
  constructor <;> intro h <;> exact ⟨by linarith [h.1], by linarith [h.2]⟩

theorem validateFilter_iff {p : Plugin} :
    validateFilter p = true ↔ (1/2 : ℚ) ≤ p.order ∧ p.order < 3/2 := by
  unfold validateFilter
  rw [inrange_iff]
  unfold ValidatorOrder
  constructor <;> intro h <;> exact ⟨by linarith [h.1], by linarith [h.2]⟩

theorem extractFilter_iff {p : Plugin} :
    extractFilter p = true ↔ (3/2 : ℚ) ≤ p.order ∧ p.order < 5/2 := by
  unfold extractFilter
  rw [inrange_iff]
  unfold ExtractorOrder
  constructor <;> intro h <;> exact ⟨by linarith [h.1], by linarith [h.2]⟩

theorem integrateFilter_iff {p : Plugin} :
    integrateFilter p = true ↔ (5/2 : ℚ) ≤ p.order ∧ p.order < 7/2 := by
  unfold integrateFilter
  rw [inrange_iff]
  unfold IntegratorOrder
  constructor <;> intro h <;> exact ⟨by linarith [h.1], by linarith [h.2]⟩

theorem postintegrateFilter_iff {p : Plugin} :
    postintegrateFilter p = true ↔ (7/2 : ℚ) ≤ p.order := by
  simp only [postintegrateFilter, Bool.and_eq_true, Bool.not_eq_true',
    decide_eq_true_eq]
  constructor
  · rintro ⟨h1, h2⟩
    by_contra hc
    push_neg at hc
    have h1' : (3 : ℚ) < p.order := h1
    have hir : inrange p.order IntegratorOrder = true := by
      rw [inrange_iff]
      unfold IntegratorOrder
      exact ⟨by linarith, by linarith⟩
    rw [hir] at h2
    exact absurd h2 (by simp)
  · intro h
    have h0 : p.order > IntegratorOrder := by
      show (3 : ℚ) < p.order
      linarith
    refine ⟨h0, bool_eq_false ?_⟩
    intro hc
    have h2' : p.order < IntegratorOrder + 1/2 := (inrange_iff.mp hc).2
    have h2'' : p.order < (3 : ℚ) + 1/2 := h2'
    linarith

theorem filters_count (p : Plugin) :
    (precollectFilter p).toNat + (collectFilter p).toNat + (validateFilter p).toNat +
      (extractFilter p).toNat + (integrateFilter p).toNat +
      (postintegrateFilter p).toNat = 1 := by
  have fval : ∀ b : Bool, (∀ h : b = true, False) → b = false := by
    intro b hb
    cases b
    · rfl
    · exact absurd (hb rfl) id
  rcases lt_or_le p.order (-(1/2) : ℚ) with h0 | h0
  · have f1 : precollectFilter p = true := precollectFilter_iff.mpr h0
    have f2 : collectFilter p = false :=
      fval _ (fun hc => by have := (collectFilter_iff.mp hc).1; linarith)
    have f3 : validateFilter p = false :=
      fval _ (fun hc => by have := (validateFilter_iff.mp hc).1; linarith)
    have f4 : extractFilter p = false :=
      fval _ (fun hc => by have := (extractFilter_iff.mp hc).1; linarith)
    have f5 : integrateFilter p = false :=
      fval _ (fun hc => by have := (integrateFilter_iff.mp hc).1; linarith)
    have f6 : postintegrateFilter p = false :=
      fval _ (fun hc => by have := postintegrateFilter_iff.mp hc; linarith)
    rw [f1, f2, f3, f4, f5, f6]; decide
  · rcases lt_or_le p.order (1/2 : ℚ) with h1 | h1
    · have f1 : precollectFilter p = false :=
        fval _ (fun hc => by have := precollectFilter_iff.mp hc; linarith)
      have f2 : collectFilter p = true := collectFilter_iff.mpr ⟨h0, h1⟩
      have f3 : validateFilter p = false :=
        fval _ (fun hc => by have := (validateFilter_iff.mp hc).1; linarith)
      have f4 : extractFilter p = false :=
        fval _ (fun hc => by have := (extractFilter_iff.mp hc).1; linarith)
      have f5 : integrateFilter p = false :=
        fval _ (fun hc => by have := (integrateFilter_iff.mp hc).1; linarith)
      have f6 : postintegrateFilter p = false :=
        fval _ (fun hc => by have := postintegrateFilter_iff.mp hc; linarith)
      rw [f1, f2, f3, f4, f5, f6]; decide
    · rcases lt_or_le p.order (3/2 : ℚ) with h2 | h2
      · have f1 : precollectFilter p = false :=
          fval _ (fun hc => by have := precollectFilter_iff.mp hc; linarith)
        have f2 : collectFilter p = false :=
          fval _ (fun hc => by have := (collectFilter_iff.mp hc).2; linarith)
        have f3 : validateFilter p = true := validateFilter_iff.mpr ⟨h1, h2⟩
        have f4 : extractFilter p = false :=
          fval _ (fun hc => by have := (extractFilter_iff.mp hc).1; linarith)
        have f5 : integrateFilter p = false :=
          fval _ (fun hc => by have := (integrateFilter_iff.mp hc).1; linarith)
        have f6 : postintegrateFilter p = false :=
          fval _ (fun hc => by have := postintegrateFilter_iff.mp hc; linarith)
        rw [f1, f2, f3, f4, f5, f6]; decide
      · rcases lt_or_le p.order (5/2 : ℚ) with h3 | h3
        · have f1 : precollectFilter p = false :=
            fval _ (fun hc => by have := precollectFilter_iff.mp hc; linarith)
          have f2 : collectFilter p = false :=
            fval _ (fun hc => by have := (collectFilter_iff.mp hc).2; linarith)
          have f3 : validateFilter p = false :=
            fval _ (fun hc => by have := (validateFilter_iff.mp hc).2; linarith)
          have f4 : extractFilter p = true := extractFilter_iff.mpr ⟨h2, h3⟩
          have f5 : integrateFilter p = false :=
            fval _ (fun hc => by have := (integrateFilter_iff.mp hc).1; linarith)
          have f6 : postintegrateFilter p = false :=
            fval _ (fun hc => by have := postintegrateFilter_iff.mp hc; linarith)
          rw [f1, f2, f3, f4, f5, f6]; decide
        · rcases lt_or_le p.order (7/2 : ℚ) with h4 | h4
          · have f1 : precollectFilter p = false :=
              fval _ (fun hc => by have := precollectFilter_iff.mp hc; linarith)
            have f2 : collectFilter p = false :=
              fval _ (fun hc => by have := (collectFilter_iff.mp hc).2; linarith)
            have f3 : validateFilter p = false :=
              fval _ (fun hc => by have := (validateFilter_iff.mp hc).2; linarith)
            have f4 : extractFilter p = false :=
              fval _ (fun hc => by have := (extractFilter_iff.mp hc).2; linarith)
            have f5 : integrateFilter p = true := integrateFilter_iff.mpr ⟨h3, h4⟩
            have f6 : postintegrateFilter p = false :=
              fval _ (fun hc => by have := postintegrateFilter_iff.mp hc; linarith)
            rw [f1, f2, f3, f4, f5, f6]; decide
          · have f1 : precollectFilter p = false :=
              fval _ (fun hc => by have := precollectFilter_iff.mp hc; linarith)
            have f2 : collectFilter p = false :=
              fval _ (fun hc => by have := (collectFilter_iff.mp hc).2; linarith)
            have f3 : validateFilter p = false :=
              fval _ (fun hc => by have := (validateFilter_iff.mp hc).2; linarith)
            have f4 : extractFilter p = false :=
              fval _ (fun hc => by have := (extractFilter_iff.mp hc).2; linarith)
            have f5 : integrateFilter p = false :=
              fval _ (fun hc => by have := (integrateFilter_iff.mp hc).2; linarith)
            have f6 : postintegrateFilter p = true := postintegrateFilter_iff.mpr h4
            rw [f1, f2, f3, f4, f5, f6]; decide

theorem length_filter_cons {α : Type} (f : α → Bool) (a : α) (l : List α) :
    ((a :: l).filter f).length = (f a).toNat + (l.filter f).length := by
  cases h : f a <;> simp [List.filter_cons, h, Nat.add_comm]

theorem six_filter_length_sum (l : List Plugin) :
    (l.filter precollectFilter).length + (l.filter collectFilter).length +
      (l.filter validateFilter).length + (l.filter extractFilter).length +
      (l.filter integrateFilter).length + (l.filter postintegrateFilter).length
      = l.length := by
  induction l with
  | nil => simp
  | cons p l ih =>
      have hc := filters_count p
      simp only [length_filter_cons, List.length_cons]
      omega

/-- C6: every plugin surviving the active/orders filters is assigned to
exactly one of the six buckets by the bucket-membership predicates of
`_convenience_iter` — the partition is exhaustive and non-overlapping, so
the six bucket lengths of any plugin list sum to its length. -/
theorem bucket_partition_exactly_one (p : Plugin) (l : List Plugin) :
    ((precollectFilter p).toNat + (collectFilter p).toNat + (validateFilter p).toNat +
      (extractFilter p).toNat + (integrateFilter p).toNat +
      (postintegrateFilter p).toNat = 1) ∧
    ((l.filter precollectFilter).length + (l.filter collectFilter).length +
      (l.filter validateFilter).length + (l.filter extractFilter).length +
      (l.filter integrateFilter).length + (l.filter postintegrateFilter).length
      = l.length) :=
  ⟨filters_count p, six_filter_length_sum l⟩

end Pyblish

namespace Pyblish

theorem intCast_div_mono {c c' t : ℤ} (h : c ≤ c') (ht : 0 ≤ t) :
    (c : ℚ) / (t : ℚ) ≤ (c' : ℚ) / (t : ℚ) := by
  rcases eq_or_lt_of_le ht with h0 | h0
  · rw [← h0]
    norm_num
  · have ht' : (0 : ℚ) < (t : ℚ) := by exact_mod_cast h0
    exact (div_le_div_iff_of_pos_right ht').mpr (by exact_mod_cast h)

theorem fracBounds_nil {lo hi total : ℤ} : FracBounds lo hi total [] := by
  refine ⟨List.chain'_nil, ?_⟩
  intro f hf
  simp at hf

theorem fracBounds_weaken {lo hi lo' hi' total : ℤ} {l : List ℚ}
    (h : FracBounds lo hi total l) (h1 : lo' ≤ lo) (h2 : hi ≤ hi') :
    FracBounds lo' hi' total l := by
  obtain ⟨hc, hb⟩ := h
  refine ⟨hc, fun f hf => ?_⟩
  obtain ⟨c, h3, h4, h5⟩ := hb f hf
  exact ⟨c, h3, le_trans h1 h4, le_trans h5 h2⟩

theorem fracBounds_cons {lo hi total c : ℤ} {l : List ℚ}
    (h : FracBounds c hi total l) (hlo : lo ≤ c) (hhi : c ≤ hi) (ht : 0 ≤ total) :
    FracBounds lo hi total ((c : ℚ) / (total : ℚ) :: l) := by
  obtain ⟨hc, hb⟩ := h
  constructor
  · rw [List.chain'_cons']
    refine ⟨fun y hy => ?_, hc⟩
    obtain ⟨c', h3, h4, h5⟩ := hb y (List.mem_of_mem_head? hy)
    rw [h3]
    exact intCast_div_mono h4 ht
  · intro f hf
    rcases List.mem_cons.mp hf with h | h
    · exact ⟨c, h, hlo, hhi⟩
    · obtain ⟨c', h3, h4, h5⟩ := hb f h
      exact ⟨c', h3, le_trans hlo h4, h5⟩

theorem fracBounds_append {lo m hi total : ℤ} {l1 l2 : List ℚ}
    (h1 : FracBounds lo m total l1) (h2 : FracBounds m hi total l2)
    (hlom : lo ≤ m) (hmhi : m ≤ hi) (ht : 0 ≤ total) :
    FracBounds lo hi total (l1 ++ l2) := by
  obtain ⟨hc1, hb1⟩ := h1
  obtain ⟨hc2, hb2⟩ := h2
  constructor
  · refine List.Chain'.append hc1 hc2 ?_
    intro x hx y hy
    obtain ⟨c, hcx, hc4, hc5⟩ := hb1 x (List.mem_of_mem_getLast? hx)
    obtain ⟨c', hcy, hc6, hc7⟩ := hb2 y (List.mem_of_mem_head? hy)
    rw [hcx, hcy]
    exact intCast_div_mono (le_trans hc5 hc6) ht
  · intro f hf
    rcases List.mem_append.mp hf with h | h
    · obtain ⟨c, h3, h4, h5⟩ := hb1 f h
      exact ⟨c, h3, h4, le_trans h5 hmhi⟩
    · obtain ⟨c, h3, h4, h5⟩ := hb2 f h
      exact ⟨c, h3, le_trans hlom h4, h5⟩

theorem resultsOf_append {Ctx Inst E : Type} (a b : List (Item Ctx Inst E)) :
    resultsOf (a ++ b) = resultsOf a ++ resultsOf b := by
  simp [resultsOf, List.filterMap_append]

theorem checkpointsOf_append {Ctx Inst E : Type} (a b : List (Item Ctx Inst E)) :
    checkpointsOf (a ++ b) = checkpointsOf a ++ checkpointsOf b := by
  simp [checkpointsOf, List.filterMap_append]

theorem progressFracs_append {Ctx Inst E : Type} (a b : List (Item Ctx Inst E)) :
    progressFracs (a ++ b) = progressFracs a ++ progressFracs b := by
  simp [progressFracs, resultsOf_append]


theorem progressFracs_cons_printed {Ctx Inst E : Type} (v : E)
    (l : List (Item Ctx Inst E)) :
    progressFracs (Item.printed v :: l) = progressFracs l := by
  simp [progressFracs, resultsOf, List.filterMap_cons]

theorem progressFracs_cons_result {Ctx Inst E : Type} (r : ResultRec Inst E)
    (l : List (Item Ctx Inst E)) :
    progressFracs (Item.result r :: l) = r.progress :: progressFracs l := by
  simp [progressFracs, resultsOf, List.filterMap_cons]

theorem processPairs_spec {Ctx Inst E F : Type}
    (err : Plugin → Ctx → Option Inst → Except F (Option E)) (ctx : Ctx)
    (B : Finset Plugin) (pairs : List (Plugin × Option Inst)) :
    ∀ (processed : Finset Plugin) (actual : ℤ) (state : SchedState)
      (progress : Progress),
      (∀ pr ∈ pairs, pr.1 ∈ B) → processed ⊆ B →
      actual = (processed.card : ℤ) → 0 ≤ progress.total →
      PairsOutSpec B processed actual state progress
        (processPairs err ctx pairs processed actual state progress) := by
  induction pairs with
  | nil =>
      intro processed actual state progress hp hsub hact ht
      unfold PairsOutSpec processPairs
      dsimp only
      refine ⟨hsub, Finset.Subset.refl _, hact, rfl, by ring,
        Finset.Subset.refl _, ?_⟩
      exact fracBounds_nil
  | cons pr rest ih =>
      obtain ⟨plug, inst⟩ := pr
      intro processed actual state progress hp hsub hact ht
      have hrestB : ∀ q ∈ rest, q.1 ∈ B := fun q hq => hp q (List.mem_cons_of_mem _ hq)
      have hplugB : plug ∈ B := hp (plug, inst) (List.mem_cons_self _ _)
      by_cases hmem : plug ∈ processed
      · simp only [processPairs, if_pos hmem]
        rcases herr : err plug ctx inst with f | e
        · unfold PairsOutSpec
          dsimp only
          refine ⟨hsub, Finset.Subset.refl _, hact, rfl, by ring,
            Finset.Subset.refl _, ?_⟩
          exact fracBounds_nil
        · rcases e with _ | v
          · have IH := ih processed actual state progress hrestB hsub hact ht
            obtain ⟨i1, i2, i3, i4, i5, i6, i7⟩ := IH
            have hcard : processed.card ≤ (processPairs err ctx rest processed actual
                state progress).processed.card := Finset.card_le_card i2
            unfold PairsOutSpec
            simp only [Option.isSome_none, Option.isSome_some, Bool.false_eq_true,
              eq_self_iff_true, if_true, if_false]
            refine ⟨i1, i2, i3, i4, i5, i6, ?_⟩
            rw [List.nil_append, progressFracs_cons_result]
            exact fracBounds_cons i7 (le_refl _) (by omega) ht
          · have IH := ih processed actual
              { state with ordersWithError := insert plug.order state.ordersWithError }
              progress hrestB hsub hact ht
            obtain ⟨i1, i2, i3, i4, i5, i6, i7⟩ := IH
            have hcard : processed.card ≤ (processPairs err ctx rest processed actual
                { state with ordersWithError := insert plug.order state.ordersWithError }
                progress).processed.card := Finset.card_le_card i2
            unfold PairsOutSpec
            simp only [Option.isSome_none, Option.isSome_some, Bool.false_eq_true,
              eq_self_iff_true, if_true, if_false]
            refine ⟨i1, i2, i3, i4, i5,
              le_trans (Finset.subset_insert _ _) i6, ?_⟩
            rw [List.singleton_append, progressFracs_cons_printed, progressFracs_cons_result]
            exact fracBounds_cons i7 (le_refl _) (by omega) ht
      · simp only [processPairs, if_neg hmem]
        have hsub1 : insert plug processed ⊆ B :=
          Finset.insert_subset_iff.mpr ⟨hplugB, hsub⟩
        have hact1 : actual + 1 = ((insert plug processed).card : ℤ) := by
          rw [Finset.card_insert_of_not_mem hmem]
          push_cast
          omega
        rcases herr : err plug ctx inst with f | e
        · unfold PairsOutSpec
          dsimp only
          refine ⟨hsub1, Finset.subset_insert _ _, hact1, rfl, by ring,
            Finset.Subset.refl _, ?_⟩
          exact fracBounds_nil
        · rcases e with _ | v
          · have IH := ih (insert plug processed) (actual + 1) state
              { progress with current := progress.current + 1 } hrestB hsub1 hact1 ht
            obtain ⟨i1, i2, i3, i4, i5, i6, i7⟩ := IH
            dsimp only at i4 i5 i7
            have hcard : (insert plug processed).card ≤ (processPairs err ctx rest
                (insert plug processed) (actual + 1) state
                { progress with current := progress.current + 1 }).processed.card :=
              Finset.card_le_card i2
            unfold PairsOutSpec
            simp only [Option.isSome_none, Option.isSome_some, Bool.false_eq_true,
              eq_self_iff_true, if_true, if_false]
            refine ⟨i1, le_trans (Finset.subset_insert _ _) i2, i3, i4,
              by omega, i6, ?_⟩
            rw [List.nil_append, progressFracs_cons_result]
            refine fracBounds_cons (fracBounds_weaken i7 (le_refl _) (le_refl _))
              (by omega) (by omega) ht
          · have IH := ih (insert plug processed) (actual + 1)
              { state with ordersWithError := insert plug.order state.ordersWithError }
              { progress with current := progress.current + 1 } hrestB hsub1 hact1 ht
            obtain ⟨i1, i2, i3, i4, i5, i6, i7⟩ := IH
            dsimp only at i4 i5 i7
            have hcard : (insert plug processed).card ≤ (processPairs err ctx rest
                (insert plug processed) (actual + 1)
                { state with ordersWithError := insert plug.order state.ordersWithError }
                { progress with current := progress.current + 1 }).processed.card :=
              Finset.card_le_card i2
            unfold PairsOutSpec
            simp only [Option.isSome_none, Option.isSome_some, Bool.false_eq_true,
              eq_self_iff_true, if_true, if_false]
            refine ⟨i1, le_trans (Finset.subset_insert _ _) i2, i3, i4,
              by omega, le_trans (Finset.subset_insert _ _) i6, ?_⟩
            rw [List.singleton_append, progressFracs_cons_printed, progressFracs_cons_result]
            refine fracBounds_cons (fracBounds_weaken i7 (le_refl _) (le_refl _))
              (by omega) (by omega) ht

theorem resultsOf_cons_result {Ctx Inst E : Type} (r : ResultRec Inst E)
    (l : List (Item Ctx Inst E)) :
    resultsOf (Item.result r :: l) = r :: resultsOf l := by
  simp [resultsOf, List.filterMap_cons]

theorem resultsOf_cons_printed {Ctx Inst E : Type} (v : E)
    (l : List (Item Ctx Inst E)) :
    resultsOf (Item.printed v :: l) = resultsOf l := by
  simp [resultsOf, List.filterMap_cons]

theorem resultsOf_cons_checkpoint {Ctx Inst E : Type} (n : String) (c : Option Ctx)
    (l : List (Item Ctx Inst E)) :
    resultsOf (Item.checkpoint n c :: l) = resultsOf l := by
  simp [resultsOf, List.filterMap_cons]

theorem checkpointsOf_cons_result {Ctx Inst E : Type} (r : ResultRec Inst E)
    (l : List (Item Ctx Inst E)) :
    checkpointsOf (Item.result r :: l) = checkpointsOf l := by
  simp [checkpointsOf, List.filterMap_cons]

theorem checkpointsOf_cons_printed {Ctx Inst E : Type} (v : E)
    (l : List (Item Ctx Inst E)) :
    checkpointsOf (Item.printed v :: l) = checkpointsOf l := by
  simp [checkpointsOf, List.filterMap_cons]

theorem checkpointsOf_cons_checkpoint {Ctx Inst E : Type} (n : String)
    (c : Option Ctx) (l : List (Item Ctx Inst E)) :
    checkpointsOf (Item.checkpoint n c :: l) = (n, c) :: checkpointsOf l := by
  simp [checkpointsOf, List.filterMap_cons]

theorem processPairs_state_mono {Ctx Inst E F : Type}
    (err : Plugin → Ctx → Option Inst → Except F (Option E)) (ctx : Ctx)
    (pairs : List (Plugin × Option Inst)) :
    ∀ (processed : Finset Plugin) (actual : ℤ) (state : SchedState)
      (progress : Progress),
      state.ordersWithError ⊆
        (processPairs err ctx pairs processed actual state progress).state.ordersWithError := by
  induction pairs with
  | nil =>
      intro processed actual state progress
      exact Finset.Subset.refl _
  | cons pr rest ih =>
      obtain ⟨plug, inst⟩ := pr
      intro processed actual state progress
      by_cases hmem : plug ∈ processed
      · simp only [processPairs, if_pos hmem]
        rcases herr : err plug ctx inst with f | e
        · exact Finset.Subset.refl _
        · rcases e with _ | v
          · exact ih processed actual state progress
          · exact le_trans (Finset.subset_insert _ _)
              (ih processed actual
                { state with ordersWithError := insert plug.order state.ordersWithError }
                progress)
      · simp only [processPairs, if_neg hmem]
        rcases herr : err plug ctx inst with f | e
        · exact Finset.Subset.refl _
        · rcases e with _ | v
          · exact ih (insert plug processed) (actual + 1) state
              { progress with current := progress.current + 1 }
          · exact le_trans (Finset.subset_insert _ _)
              (ih (insert plug processed) (actual + 1)
                { state with ordersWithError := insert plug.order state.ordersWithError }
                { progress with current := progress.current + 1 })

theorem processPairs_no_checkpoints {Ctx Inst E F : Type}
    (err : Plugin → Ctx → Option Inst → Except F (Option E)) (ctx : Ctx)
    (pairs : List (Plugin × Option Inst)) :
    ∀ (processed : Finset Plugin) (actual : ℤ) (state : SchedState)
      (progress : Progress),
      checkpointsOf (processPairs err ctx pairs processed actual state progress).items
        = [] := by
  induction pairs with
  | nil =>
      intro processed actual state progress
      rfl
  | cons pr rest ih =>
      obtain ⟨plug, inst⟩ := pr
      intro processed actual state progress
      by_cases hmem : plug ∈ processed
      · simp only [processPairs, if_pos hmem]
        rcases herr : err plug ctx inst with f | e
        · rfl
        · rcases e with _ | v
          · dsimp only
            rw [List.nil_append, checkpointsOf_cons_result]
            exact ih _ _ _ _
          · dsimp only
            rw [List.singleton_append, checkpointsOf_cons_printed,
              checkpointsOf_cons_result]
            exact ih _ _ _ _
      · simp only [processPairs, if_neg hmem]
        rcases herr : err plug ctx inst with f | e
        · rfl
        · rcases e with _ | v
          · dsimp only
            rw [List.nil_append, checkpointsOf_cons_result]
            exact ih _ _ _ _
          · dsimp only
            rw [List.singleton_append, checkpointsOf_cons_printed,
              checkpointsOf_cons_result]
            exact ih _ _ _ _

theorem processPairs_okOracle_fatal {Ctx Inst E F : Type}
    (f0 : Plugin → Ctx → Option Inst → Option E) (ctx : Ctx)
    (pairs : List (Plugin × Option Inst)) :
    ∀ (processed : Finset Plugin) (actual : ℤ) (state : SchedState)
      (progress : Progress),
      (processPairs (okOracle f0 : Plugin → Ctx → Option Inst → Except F (Option E))
        ctx pairs processed actual state progress).fatal = none := by
  induction pairs with
  | nil =>
      intro processed actual state progress
      rfl
  | cons pr rest ih =>
      obtain ⟨plug, inst⟩ := pr
      intro processed actual state progress
      simp only [processPairs, okOracle]
      exact ih _ _ _ _

theorem processPairs_results {Ctx Inst E F : Type}
    (err : Plugin → Ctx → Option Inst → Except F (Option E)) (ctx : Ctx)
    (pairs : List (Plugin × Option Inst)) :
    ∀ (processed : Finset Plugin) (actual : ℤ) (state : SchedState)
      (progress : Progress),
      ((processPairs err ctx pairs processed actual state progress).fatal = none →
        (resultsOf (processPairs err ctx pairs processed actual state progress).items).map
          (fun r => (r.plug, r.inst)) = pairs) ∧
      ∀ r ∈ resultsOf (processPairs err ctx pairs processed actual state progress).items,
        (r.error.isSome = true →
          r.plug.order ∈
            (processPairs err ctx pairs processed actual state progress).state.ordersWithError) ∧
        ∀ e, r.error = some e →
          Item.printed e ∈ (processPairs err ctx pairs processed actual state progress).items := by
  induction pairs with
  | nil =>
      intro processed actual state progress
      constructor
      · intro _
        rfl
      · intro r hr
        rw [show (processPairs err ctx [] processed actual state progress).items
          = [] from rfl] at hr
        exact absurd hr (by simp [resultsOf])
  | cons pr rest ih =>
      obtain ⟨plug, inst⟩ := pr
      intro processed actual state progress
      simp only [processPairs]
      rcases herr : err plug ctx inst with f | e
      · constructor
        · intro hfat
          exact absurd hfat (by simp)
        · intro r hr
          exact absurd hr (by simp [resultsOf])
      · rcases e with _ | v
        · simp only [Option.isSome_none, Option.isSome_some, Bool.false_eq_true,
            eq_self_iff_true, if_true, if_false]
          obtain ⟨ih1, ih2⟩ := ih
            (if plug ∈ processed then processed else insert plug processed)
            (if plug ∈ processed then actual else actual + 1) state
            (if plug ∈ processed then progress
             else { progress with current := progress.current + 1 })
          constructor
          · intro hfat
            rw [List.nil_append, resultsOf_cons_result, List.map_cons]
            rw [ih1 hfat]
          · intro r' hr'
            rw [List.nil_append, resultsOf_cons_result] at hr'
            rcases List.mem_cons.mp hr' with h | h
            · subst h
              constructor
              · intro hsome
                exact absurd hsome (by simp)
              · intro e' he'
                exact absurd he' (by simp)
            · obtain ⟨h1, h2⟩ := ih2 r' h
              refine ⟨h1, fun e' he' => ?_⟩
              rw [List.nil_append]
              exact List.mem_cons_of_mem _ (h2 e' he')
        · simp only [Option.isSome_none, Option.isSome_some, Bool.false_eq_true,
            eq_self_iff_true, if_true, if_false]
          obtain ⟨ih1, ih2⟩ := ih
            (if plug ∈ processed then processed else insert plug processed)
            (if plug ∈ processed then actual else actual + 1)
            { state with ordersWithError := insert plug.order state.ordersWithError }
            (if plug ∈ processed then progress
             else { progress with current := progress.current + 1 })
          constructor
          · intro hfat
            rw [List.singleton_append, resultsOf_cons_printed, resultsOf_cons_result,
              List.map_cons]
            rw [ih1 hfat]
          · intro r' hr'
            rw [List.singleton_append, resultsOf_cons_printed,
              resultsOf_cons_result] at hr'
            rcases List.mem_cons.mp hr' with h | h
            · subst h
              constructor
              · intro _
                exact processPairs_state_mono err ctx rest _ _
                  { state with ordersWithError := insert plug.order state.ordersWithError } _
                  (Finset.mem_insert_self _ _)
              · intro e' he'
                cases Option.some.inj he'
                rw [List.singleton_append]
                exact List.mem_cons_self _ _
            · obtain ⟨h1, h2⟩ := ih2 r' h
              refine ⟨h1, fun e' he' => ?_⟩
              rw [List.singleton_append]
              exact List.mem_cons_of_mem _ (List.mem_cons_of_mem _ (h2 e' he'))

theorem progressFracs_nil {Ctx Inst E : Type} :
    progressFracs ([] : List (Item Ctx Inst E)) = [] := rfl

theorem progressFracs_cons_checkpoint {Ctx Inst E : Type} (n : String)
    (c : Option Ctx) (l : List (Item Ctx Inst E)) :
    progressFracs (Item.checkpoint n c :: l) = progressFracs l := by
  simp [progressFracs, resultsOf, List.filterMap_cons]

theorem processPlugins_spec {Ctx Inst E F : Type}
    (err : Plugin → Ctx → Option Inst → Except F (Option E))
    (pairsOf : List Plugin → List (Plugin × Option Inst)) (ctx : Ctx)
    (bucket : List Plugin) (state : SchedState) (progress : Progress)
    (hp : ∀ pr ∈ pairsOf bucket, pr.1 ∈ bucket) (ht : 0 ≤ progress.total) :
    (processPlugins err pairsOf ctx bucket state progress).progress.total
      = progress.total ∧
    state.ordersWithError ⊆
      (processPlugins err pairsOf ctx bucket state progress).state.ordersWithError ∧
    progress.current ≤
      (processPlugins err pairsOf ctx bucket state progress).progress.current ∧
    (processPlugins err pairsOf ctx bucket state progress).progress.current ≤
      progress.current + (bucket.length : ℤ) ∧
    ((processPlugins err pairsOf ctx bucket state progress).fatal = none →
      (processPlugins err pairsOf ctx bucket state progress).progress.current =
        progress.current + (bucket.length : ℤ)) ∧
    FracBounds progress.current
      (processPlugins err pairsOf ctx bucket state progress).progress.current
      progress.total
      (progressFracs (processPlugins err pairsOf ctx bucket state progress).items) := by
  have hspec := processPairs_spec err ctx bucket.toFinset (pairsOf bucket)
    (∅ : Finset Plugin) 0 state progress
    (fun pr hpr => List.mem_toFinset.mpr (hp pr hpr)) (Finset.empty_subset _)
    (by simp) ht
  obtain ⟨i1, i2, i3, i4, i5, i6, i7⟩ := hspec
  have hcard : (processPairs err ctx (pairsOf bucket) ∅ 0 state
      progress).processed.card ≤ bucket.toFinset.card := Finset.card_le_card i1
  have hlen : bucket.toFinset.card ≤ bucket.length := bucket.toFinset_card_le
  have hnn : (0 : ℤ) ≤ (processPairs err ctx (pairsOf bucket) ∅ 0 state
      progress).actual := by
    rw [i3]
    exact_mod_cast Nat.zero_le _
  simp only [processPlugins]
  rcases hfat : (processPairs err ctx (pairsOf bucket) ∅ 0 state progress).fatal
    with _ | f
  · dsimp only
    refine ⟨i4, i6, by omega, by omega, fun _ => by omega, ?_⟩
    have hhi : (processPairs err ctx (pairsOf bucket) ∅ 0 state
        progress).progress.current ≤ progress.current + (bucket.length : ℤ) := by
      omega
    exact fracBounds_weaken i7 (le_refl _) (by omega)
  · dsimp only
    refine ⟨i4, i6, by omega, by omega, ?_, ?_⟩
    · intro h
      exact absurd h (by simp)
    · exact fracBounds_weaken i7 (le_refl _) (by omega)

theorem runStages_spec {Ctx Inst E F : Type}
    (err : Plugin → Ctx → Option Inst → Except F (Option E))
    (pairsOf : List Plugin → List (Plugin × Option Inst)) (ctx : Ctx)
    (hP : PairsValid pairsOf) :
    ∀ (ss : List Stage) (state : SchedState) (progress : Progress),
      0 ≤ progress.total →
      (runStages err pairsOf ctx ss state progress).progress.total = progress.total ∧
      state.ordersWithError ⊆
        (runStages err pairsOf ctx ss state progress).state.ordersWithError ∧
      progress.current ≤ (runStages err pairsOf ctx ss state progress).progress.current ∧
      (runStages err pairsOf ctx ss state progress).progress.current ≤
        progress.current + (gatedLength ss : ℤ) ∧
      ((runStages err pairsOf ctx ss state progress).fatal = none →
        (runStages err pairsOf ctx ss state progress).progress.current =
          progress.current + (gatedLength ss : ℤ)) ∧
      FracBounds progress.current
        (runStages err pairsOf ctx ss state progress).progress.current
        progress.total
        (progressFracs (runStages err pairsOf ctx ss state progress).items) := by
  intro ss
  induction ss with
  | nil =>
      intro state progress ht
      refine ⟨rfl, Finset.Subset.refl _, le_refl _, ?_, ?_, ?_⟩
      · show progress.current ≤ progress.current + ((0 : ℕ) : ℤ)
        omega
      · intro _
        show progress.current = progress.current + ((0 : ℕ) : ℤ)
        omega
      · exact fracBounds_nil
  | cons stage rest ih =>
      intro state progress ht
      by_cases hg : stage.gate
      · simp only [runStages, if_pos hg]
        have hgl : gatedLength (stage :: rest) = stage.bucket.length + gatedLength rest := by
          simp [gatedLength, List.filter_cons, hg]
        obtain ⟨b1, b2, b3, b4, b5, b6⟩ := processPlugins_spec err pairsOf ctx
          stage.bucket state progress (fun pr hpr => hP stage.bucket pr hpr) ht
        rcases hfat : (processPlugins err pairsOf ctx stage.bucket state progress).fatal
          with _ | f
        · have ht1 : 0 ≤ (processPlugins err pairsOf ctx stage.bucket state
              progress).progress.total := by
            rw [b1]
            exact ht
          obtain ⟨r1, r2, r3, r4, r5, r6⟩ := ih
            (processPlugins err pairsOf ctx stage.bucket state progress).state
            (processPlugins err pairsOf ctx stage.bucket state progress).progress ht1
          have hb5 := b5 hfat
          rw [b1] at r6
          dsimp only
          have hfr : progressFracs
              ((processPlugins err pairsOf ctx stage.bucket state progress).items ++
                (match stage.checkpoint with
                  | some n => [Item.checkpoint n (some ctx)]
                  | none => ([] : List (Item Ctx Inst E))) ++
                (runStages err pairsOf ctx rest
                  (processPlugins err pairsOf ctx stage.bucket state progress).state
                  (processPlugins err pairsOf ctx stage.bucket state progress).progress).items)
              = progressFracs
                  (processPlugins err pairsOf ctx stage.bucket state progress).items ++
                progressFracs
                  (runStages err pairsOf ctx rest
                    (processPlugins err pairsOf ctx stage.bucket state progress).state
                    (processPlugins err pairsOf ctx stage.bucket state
                      progress).progress).items := by
            rcases stage.checkpoint with _ | n
            · simp [progressFracs_append, progressFracs_nil]
            · simp [progressFracs_append, progressFracs_cons_checkpoint,
                progressFracs_nil]
          refine ⟨by rw [r1, b1], le_trans b2 r2, by omega, ?_, ?_, ?_⟩
          · rw [hgl]
            push_cast
            omega
          · intro hf
            have := r5 hf
            rw [hgl]
            push_cast
            omega
          · rw [hfr]
            refine fracBounds_weaken
              (fracBounds_append b6 r6 b3 r3 ht) (le_refl _) (le_refl _)
        · dsimp only
          refine ⟨b1, b2, b3, ?_, ?_, ?_⟩
          · rw [hgl]
            push_cast
            omega
          · intro hf
            exact absurd hf (by simp)
          · exact b6
      · simp only [runStages, if_neg hg]
        have hgl : gatedLength (stage :: rest) = gatedLength rest := by
          simp [gatedLength, List.filter_cons, hg]
        rw [hgl]
        exact ih state progress ht

theorem processPairs_mem {Ctx Inst E F : Type}
    (err : Plugin → Ctx → Option Inst → Except F (Option E)) (ctx : Ctx)
    (pairs : List (Plugin × Option Inst)) :
    ∀ (processed : Finset Plugin) (actual : ℤ) (state : SchedState)
      (progress : Progress),
      ∀ r ∈ resultsOf (processPairs err ctx pairs processed actual state progress).items,
        (r.plug, r.inst) ∈ pairs := by
  induction pairs with
  | nil =>
      intro processed actual state progress r hr
      rw [show (processPairs err ctx [] processed actual state progress).items
        = [] from rfl] at hr
      exact absurd hr (by simp [resultsOf])
  | cons pr rest ih =>
      obtain ⟨plug, inst⟩ := pr
      intro processed actual state progress r hr
      simp only [processPairs] at hr
      rcases herr : err plug ctx inst with f | e
      · rw [herr] at hr
        exact absurd hr (by simp [resultsOf])
      · rw [herr] at hr
        rcases e with _ | v
        · dsimp only at hr
          rw [List.nil_append, resultsOf_cons_result] at hr
          rcases List.mem_cons.mp hr with h | h
          · subst h
            exact List.mem_cons_self _ _
          · exact List.mem_cons_of_mem _ (ih _ _ _ _ r h)
        · dsimp only at hr
          rw [List.singleton_append, resultsOf_cons_printed,
            resultsOf_cons_result] at hr
          rcases List.mem_cons.mp hr with h | h
          · subst h
            exact List.mem_cons_self _ _
          · exact List.mem_cons_of_mem _ (ih _ _ _ _ r h)

theorem processPlugins_okOracle_fatal {Ctx Inst E F : Type}
    (f0 : Plugin → Ctx → Option Inst → Option E)
    (pairsOf : List Plugin → List (Plugin × Option Inst)) (ctx : Ctx)
    (bucket : List Plugin) (state : SchedState) (progress : Progress) :
    (processPlugins (okOracle f0 : Plugin → Ctx → Option Inst → Except F (Option E))
      pairsOf ctx bucket state progress).fatal = none := by
  simp only [processPlugins]
  rw [processPairs_okOracle_fatal]

theorem processPlugins_state_mono {Ctx Inst E F : Type}
    (err : Plugin → Ctx → Option Inst → Except F (Option E))
    (pairsOf : List Plugin → List (Plugin × Option Inst)) (ctx : Ctx)
    (bucket : List Plugin) (state : SchedState) (progress : Progress) :
    state.ordersWithError ⊆
      (processPlugins err pairsOf ctx bucket state progress).state.ordersWithError := by
  simp only [processPlugins]
  rcases hfat : (processPairs err ctx (pairsOf bucket) ∅ 0 state progress).fatal
    with _ | f
  · exact processPairs_state_mono err ctx (pairsOf bucket) ∅ 0 state progress
  · exact processPairs_state_mono err ctx (pairsOf bucket) ∅ 0 state progress

theorem processPlugins_no_checkpoints {Ctx Inst E F : Type}
    (err : Plugin → Ctx → Option Inst → Except F (Option E))
    (pairsOf : List Plugin → List (Plugin × Option Inst)) (ctx : Ctx)
    (bucket : List Plugin) (state : SchedState) (progress : Progress) :
    checkpointsOf (processPlugins err pairsOf ctx bucket state progress).items = [] := by
  simp only [processPlugins]
  rcases hfat : (processPairs err ctx (pairsOf bucket) ∅ 0 state progress).fatal
    with _ | f
  · exact processPairs_no_checkpoints err ctx (pairsOf bucket) ∅ 0 state progress
  · exact processPairs_no_checkpoints err ctx (pairsOf bucket) ∅ 0 state progress

theorem processPlugins_items_mem {Ctx Inst E F : Type}
    (err : Plugin → Ctx → Option Inst → Except F (Option E))
    (pairsOf : List Plugin → List (Plugin × Option Inst)) (ctx : Ctx)
    (bucket : List Plugin) (state : SchedState) (progress : Progress) :
    ∀ r ∈ resultsOf (processPlugins err pairsOf ctx bucket state progress).items,
      (r.plug, r.inst) ∈ pairsOf bucket := by
  simp only [processPlugins]
  rcases hfat : (processPairs err ctx (pairsOf bucket) ∅ 0 state progress).fatal
    with _ | f
  · exact processPairs_mem err ctx (pairsOf bucket) ∅ 0 state progress
  · exact processPairs_mem err ctx (pairsOf bucket) ∅ 0 state progress

theorem processPlugins_errors {Ctx Inst E F : Type}
    (err : Plugin → Ctx → Option Inst → Except F (Option E))
    (pairsOf : List Plugin → List (Plugin × Option Inst)) (ctx : Ctx)
    (bucket : List Plugin) (state : SchedState) (progress : Progress) :
    ((processPlugins err pairsOf ctx bucket state progress).fatal = none →
      (resultsOf (processPlugins err pairsOf ctx bucket state progress).items).map
        (fun r => (r.plug, r.inst)) = pairsOf bucket) ∧
    ∀ r ∈ resultsOf (processPlugins err pairsOf ctx bucket state progress).items,
      (r.error.isSome = true →
        r.plug.order ∈
          (processPlugins err pairsOf ctx bucket state progress).state.ordersWithError) ∧
      ∀ e, r.error = some e →
        Item.printed e ∈ (processPlugins err pairsOf ctx bucket state progress).items := by
  obtain ⟨h1, h2⟩ := processPairs_results err ctx (pairsOf bucket) ∅ 0 state progress
  simp only [processPlugins]
  rcases hfat : (processPairs err ctx (pairsOf bucket) ∅ 0 state progress).fatal
    with _ | f
  · exact ⟨fun _ => h1 hfat, h2⟩
  · refine ⟨fun h => absurd h (by simp), h2⟩

theorem runStages_okOracle_fatal {Ctx Inst E F : Type}
    (f0 : Plugin → Ctx → Option Inst → Option E)
    (pairsOf : List Plugin → List (Plugin × Option Inst)) (ctx : Ctx) :
    ∀ (ss : List Stage) (state : SchedState) (progress : Progress),
      (runStages (okOracle f0 : Plugin → Ctx → Option Inst → Except F (Option E))
        pairsOf ctx ss state progress).fatal = none := by
  intro ss
  induction ss with
  | nil =>
      intro state progress
      rfl
  | cons stage rest ih =>
      intro state progress
      by_cases hg : stage.gate
      · simp only [runStages, if_pos hg]
        rcases hfat : (processPlugins (okOracle f0 : Plugin → Ctx → Option Inst →
            Except F (Option E)) pairsOf ctx stage.bucket state progress).fatal
          with _ | f
        · exact ih _ _
        · exact absurd hfat (by simp [processPlugins_okOracle_fatal])
      · simp only [runStages, if_neg hg]
        exact ih _ _

theorem runStages_state_mono {Ctx Inst E F : Type}
    (err : Plugin → Ctx → Option Inst → Except F (Option E))
    (pairsOf : List Plugin → List (Plugin × Option Inst)) (ctx : Ctx) :
    ∀ (ss : List Stage) (state : SchedState) (progress : Progress),
      state.ordersWithError ⊆
        (runStages err pairsOf ctx ss state progress).state.ordersWithError := by
  intro ss
  induction ss with
  | nil =>
      intro state progress
      exact Finset.Subset.refl _
  | cons stage rest ih =>
      intro state progress
      by_cases hg : stage.gate
      · simp only [runStages, if_pos hg]
        rcases hfat : (processPlugins err pairsOf ctx stage.bucket state progress).fatal
          with _ | f
        · exact le_trans (processPlugins_state_mono err pairsOf ctx stage.bucket
            state progress) (ih _ _)
        · exact processPlugins_state_mono err pairsOf ctx stage.bucket state progress
      · simp only [runStages, if_neg hg]
        exact ih _ _

theorem runStages_checkpoints {Ctx Inst E F : Type}
    (f0 : Plugin → Ctx → Option Inst → Option E)
    (pairsOf : List Plugin → List (Plugin × Option Inst)) (ctx : Ctx) :
    ∀ (ss : List Stage) (state : SchedState) (progress : Progress),
      checkpointsOf (runStages
        (okOracle f0 : Plugin → Ctx → Option Inst → Except F (Option E))
        pairsOf ctx ss state progress).items = gatedCheckpoints ss ctx := by
  intro ss
  induction ss with
  | nil =>
      intro state progress
      rfl
  | cons stage rest ih =>
      intro state progress
      by_cases hg : stage.gate
      · simp only [runStages, if_pos hg]
        rcases hfat : (processPlugins (okOracle f0 : Plugin → Ctx → Option Inst →
            Except F (Option E)) pairsOf ctx stage.bucket state progress).fatal
          with _ | f
        · dsimp only
          rcases hc : stage.checkpoint with _ | n
          · dsimp only
            rw [checkpointsOf_append, checkpointsOf_append,
              processPlugins_no_checkpoints, ih _ _]
            have hgc : gatedCheckpoints (stage :: rest) ctx
                = gatedCheckpoints rest ctx := by
              simp [gatedCheckpoints, List.filter_cons, hg, List.filterMap_cons, hc]
            rw [hgc]
            simp [checkpointsOf]
          · dsimp only
            rw [checkpointsOf_append, checkpointsOf_append,
              processPlugins_no_checkpoints, checkpointsOf_cons_checkpoint, ih _ _]
            have hgc : gatedCheckpoints (stage :: rest) ctx
                = (n, some ctx) :: gatedCheckpoints rest ctx := by
              simp [gatedCheckpoints, List.filter_cons, hg, List.filterMap_cons, hc]
            rw [hgc]
            simp [checkpointsOf]
        · exact absurd hfat (by simp [processPlugins_okOracle_fatal])
      · simp only [runStages, if_neg hg]
        have hgc : gatedCheckpoints (stage :: rest) ctx = gatedCheckpoints rest ctx := by
          simp [gatedCheckpoints, List.filter_cons, hg]
        rw [hgc]
        exact ih _ _

theorem runStages_results {Ctx Inst E F : Type}
    (f0 : Plugin → Ctx → Option Inst → Option E)
    (pairsOf : List Plugin → List (Plugin × Option Inst)) (ctx : Ctx) :
    ∀ (ss : List Stage) (state : SchedState) (progress : Progress),
      (resultsOf (runStages
        (okOracle f0 : Plugin → Ctx → Option Inst → Except F (Option E))
        pairsOf ctx ss state progress).items).map (fun r => (r.plug, r.inst))
        = gatedPairs pairsOf ss := by
  intro ss
  induction ss with
  | nil =>
      intro state progress
      rfl
  | cons stage rest ih =>
      intro state progress
      by_cases hg : stage.gate
      · simp only [runStages, if_pos hg]
        rcases hfat : (processPlugins (okOracle f0 : Plugin → Ctx → Option Inst →
            Except F (Option E)) pairsOf ctx stage.bucket state progress).fatal
          with _ | f
        · dsimp only
          have hgp : gatedPairs pairsOf (stage :: rest) =
              pairsOf stage.bucket ++ gatedPairs pairsOf rest := by
            simp [gatedPairs, List.filter_cons, hg]
          have hmid : resultsOf (match stage.checkpoint with
              | some n => [Item.checkpoint n (some ctx)]
              | none => ([] : List (Item Ctx Inst E))) = [] := by
            rcases stage.checkpoint with _ | n
            · rfl
            · rw [resultsOf_cons_checkpoint]
              rfl
          obtain ⟨hok, _⟩ := processPlugins_errors
            (okOracle f0 : Plugin → Ctx → Option Inst → Except F (Option E))
            pairsOf ctx stage.bucket state progress
          rw [resultsOf_append, resultsOf_append, hmid, List.append_nil,
            List.map_append, ih _ _, hgp, hok hfat]
        · exact absurd hfat (by simp [processPlugins_okOracle_fatal])
      · simp only [runStages, if_neg hg]
        have hgp : gatedPairs pairsOf (stage :: rest) = gatedPairs pairsOf rest := by
          simp [gatedPairs, List.filter_cons, hg]
        rw [hgp]
        exact ih _ _

theorem runStages_items_mem {Ctx Inst E F : Type}
    (err : Plugin → Ctx → Option Inst → Except F (Option E))
    (pairsOf : List Plugin → List (Plugin × Option Inst)) (ctx : Ctx) :
    ∀ (ss : List Stage) (state : SchedState) (progress : Progress),
      ∀ r ∈ resultsOf (runStages err pairsOf ctx ss state progress).items,
        ∃ s ∈ ss, s.gate = true ∧ (r.plug, r.inst) ∈ pairsOf s.bucket := by
  intro ss
  induction ss with
  | nil =>
      intro state progress r hr
      rw [show (runStages err pairsOf ctx [] state progress).items = [] from rfl] at hr
      exact absurd hr (by simp [resultsOf])
  | cons stage rest ih =>
      intro state progress r hr
      by_cases hg : stage.gate
      · simp only [runStages, if_pos hg] at hr
        rcases hfat : (processPlugins err pairsOf ctx stage.bucket state progress).fatal
          with _ | f
        · rw [hfat] at hr
          dsimp only at hr
          rw [resultsOf_append, resultsOf_append] at hr
          rcases List.mem_append.mp hr with h | h
          · rcases List.mem_append.mp h with h2 | h2
            · exact ⟨stage, List.mem_cons_self _ _, hg,
                processPlugins_items_mem err pairsOf ctx stage.bucket state progress r h2⟩
            · exfalso
              have hmid : resultsOf (match stage.checkpoint with
                  | some n => [Item.checkpoint n (some ctx)]
                  | none => ([] : List (Item Ctx Inst E))) = [] := by
                rcases stage.checkpoint with _ | n
                · rfl
                · rw [resultsOf_cons_checkpoint]
                  rfl
              rw [hmid] at h2
              simp at h2
          · obtain ⟨s, hs, hsg, hsp⟩ := ih _ _ r h
            exact ⟨s, List.mem_cons_of_mem _ hs, hsg, hsp⟩
        · rw [hfat] at hr
          dsimp only at hr
          exact ⟨stage, List.mem_cons_self _ _, hg,
            processPlugins_items_mem err pairsOf ctx stage.bucket state progress r hr⟩
      · simp only [runStages, if_neg hg] at hr
        obtain ⟨s, hs, hsg, hsp⟩ := ih _ _ r hr
        exact ⟨s, List.mem_cons_of_mem _ hs, hsg, hsp⟩

theorem runStages_cons_gate_none {Ctx Inst E F : Type}
    (err : Plugin → Ctx → Option Inst → Except F (Option E))
    (pairsOf : List Plugin → List (Plugin × Option Inst)) (ctx : Ctx)
    (stage : Stage) (rest : List Stage) (state : SchedState) (progress : Progress)
    (hg : stage.gate = true)
    (hfat : (processPlugins err pairsOf ctx stage.bucket state progress).fatal = none) :
    runStages err pairsOf ctx (stage :: rest) state progress =
      ⟨(processPlugins err pairsOf ctx stage.bucket state progress).items ++
        (match stage.checkpoint with
          | some n => [Item.checkpoint n (some ctx)]
          | none => ([] : List (Item Ctx Inst E))) ++
        (runStages err pairsOf ctx rest
          (processPlugins err pairsOf ctx stage.bucket state progress).state
          (processPlugins err pairsOf ctx stage.bucket state progress).progress).items,
       (runStages err pairsOf ctx rest
          (processPlugins err pairsOf ctx stage.bucket state progress).state
          (processPlugins err pairsOf ctx stage.bucket state progress).progress).state,
       (runStages err pairsOf ctx rest
          (processPlugins err pairsOf ctx stage.bucket state progress).state
          (processPlugins err pairsOf ctx stage.bucket state progress).progress).progress,
       (runStages err pairsOf ctx rest
          (processPlugins err pairsOf ctx stage.bucket state progress).state
          (processPlugins err pairsOf ctx stage.bucket state progress).progress).fatal⟩ := by
  simp only [runStages, if_pos hg]
  rw [hfat]

theorem runStages_cons_gate_some {Ctx Inst E F : Type}
    (err : Plugin → Ctx → Option Inst → Except F (Option E))
    (pairsOf : List Plugin → List (Plugin × Option Inst)) (ctx : Ctx)
    (stage : Stage) (rest : List Stage) (state : SchedState) (progress : Progress)
    (f : F) (hg : stage.gate = true)
    (hfat : (processPlugins err pairsOf ctx stage.bucket state progress).fatal = some f) :
    runStages err pairsOf ctx (stage :: rest) state progress =
      ⟨(processPlugins err pairsOf ctx stage.bucket state progress).items,
       (processPlugins err pairsOf ctx stage.bucket state progress).state,
       (processPlugins err pairsOf ctx stage.bucket state progress).progress,
       some f⟩ := by
  simp only [runStages, if_pos hg]
  rw [hfat]

theorem runStages_cons_nogate {Ctx Inst E F : Type}
    (err : Plugin → Ctx → Option Inst → Except F (Option E))
    (pairsOf : List Plugin → List (Plugin × Option Inst)) (ctx : Ctx)
    (stage : Stage) (rest : List Stage) (state : SchedState) (progress : Progress)
    (hg : stage.gate = false) :
    runStages err pairsOf ctx (stage :: rest) state progress =
      runStages err pairsOf ctx rest state progress := by
  simp only [runStages, hg]
  rfl

theorem runStages_errors {Ctx Inst E F : Type}
    (err : Plugin → Ctx → Option Inst → Except F (Option E))
    (pairsOf : List Plugin → List (Plugin × Option Inst)) (ctx : Ctx) :
    ∀ (ss : List Stage) (state : SchedState) (progress : Progress),
      ∀ r ∈ resultsOf (runStages err pairsOf ctx ss state progress).items,
        (r.error.isSome = true →
          r.plug.order ∈
            (runStages err pairsOf ctx ss state progress).state.ordersWithError) ∧
        ∀ e, r.error = some e →
          Item.printed e ∈ (runStages err pairsOf ctx ss state progress).items := by
  intro ss
  induction ss with
  | nil =>
      intro state progress r hr
      rw [show (runStages err pairsOf ctx [] state progress).items = [] from rfl] at hr
      exact absurd hr (by simp [resultsOf])
  | cons stage rest ih =>
      intro state progress r hr
      by_cases hg : stage.gate
      · rcases hfat : (processPlugins err pairsOf ctx stage.bucket state progress).fatal
          with _ | f
        · rw [runStages_cons_gate_none err pairsOf ctx stage rest state progress
            hg hfat] at hr ⊢
          dsimp only at hr ⊢
          obtain ⟨hb1, hb2⟩ := processPlugins_errors err pairsOf ctx stage.bucket
            state progress
          rw [resultsOf_append, resultsOf_append] at hr
          rcases List.mem_append.mp hr with h | h
          · rcases List.mem_append.mp h with h2 | h2
            · obtain ⟨e1, e2⟩ := hb2 r h2
              constructor
              · intro hsome
                exact runStages_state_mono err pairsOf ctx rest _ _ (e1 hsome)
              · intro e he
                exact List.mem_append_left _ (List.mem_append_left _ (e2 e he))
            · exfalso
              have hmid : resultsOf (match stage.checkpoint with
                  | some n => [Item.checkpoint n (some ctx)]
                  | none => ([] : List (Item Ctx Inst E))) = [] := by
                rcases stage.checkpoint with _ | n
                · rfl
                · rw [resultsOf_cons_checkpoint]
                  rfl
              rw [hmid] at h2
              simp at h2
          · obtain ⟨e1, e2⟩ := ih _ _ r h
            constructor
            · exact e1
            · intro e he
              exact List.mem_append_right _ (e2 e he)
        · rw [runStages_cons_gate_some err pairsOf ctx stage rest state progress
            f hg hfat] at hr ⊢
          dsimp only at hr ⊢
          obtain ⟨hb1, hb2⟩ := processPlugins_errors err pairsOf ctx stage.bucket
            state progress
          exact hb2 r hr
      · rw [Bool.not_eq_true] at hg
        rw [runStages_cons_nogate err pairsOf ctx stage rest state progress hg] at hr ⊢
        exact ih _ _ r hr

theorem mem_regFold (targets : List String) (r : Finset String) (t : String) :
    t ∈ targets.foldl (fun acc x => insert x acc) r ↔ t ∈ targets ∨ t ∈ r := by
  induction targets generalizing r with
  | nil => simp
  | cons a ts ih =>
      rw [List.foldl_cons, ih]
      simp [Finset.mem_insert, List.mem_cons]
      tauto

theorem mem_deregFold (targets : List String) (pre : Finset String) :
    ∀ (r : Finset String) (t : String),
      (t ∈ targets.foldl (fun acc x => if x ∈ pre then acc else acc.erase x) r ↔
        t ∈ r ∧ (t ∉ targets ∨ t ∈ pre)) := by
  induction targets with
  | nil =>
      intro r t
      simp
  | cons a ts ih =>
      intro r t
      rw [List.foldl_cons]
      by_cases ha : a ∈ pre
      · rw [if_pos ha, ih]
        by_cases hta : t = a
        · subst hta
          simp [ha]
        · simp [List.mem_cons, hta]
      · rw [if_neg ha, ih]
        by_cases hta : t = a
        · subst hta
          simp [Finset.mem_erase, ha]
        · simp [Finset.mem_erase, List.mem_cons, hta]

theorem convenienceIter_eq_none {Ctx Inst E F : Type}
    (err : Plugin → Ctx → Option Inst → Except F (Option E))
    (pairsOf : List Plugin → List (Plugin × Option Inst))
    (freshCtx : Ctx) (context : Option Ctx) (plugins : List Plugin)
    (targets : List String) (orders : List ℚ) (registry0 : Finset String)
    (hfat : (runStages err pairsOf (context.getD freshCtx)
      (stagesOf (ordersFiltered (activePlugins plugins) orders) orders)
      ⟨none, ∅⟩
      ⟨0, ((ordersFiltered (activePlugins plugins) orders).length : ℤ)⟩).fatal
        = none) :
    convenienceIter err pairsOf freshCtx context plugins targets orders registry0 =
      ⟨(runStages err pairsOf (context.getD freshCtx)
          (stagesOf (ordersFiltered (activePlugins plugins) orders) orders)
          ⟨none, ∅⟩
          ⟨0, ((ordersFiltered (activePlugins plugins) orders).length : ℤ)⟩).items,
       (if targets.isEmpty then ["default"] else targets).foldl
         (fun r t => if t ∈ registry0 then r else r.erase t)
         ((if targets.isEmpty then ["default"] else targets).foldl
           (fun r t => insert t r) registry0),
       (runStages err pairsOf (context.getD freshCtx)
          (stagesOf (ordersFiltered (activePlugins plugins) orders) orders)
          ⟨none, ∅⟩
          ⟨0, ((ordersFiltered (activePlugins plugins) orders).length : ℤ)⟩).state,
       (runStages err pairsOf (context.getD freshCtx)
          (stagesOf (ordersFiltered (activePlugins plugins) orders) orders)
          ⟨none, ∅⟩
          ⟨0, ((ordersFiltered (activePlugins plugins) orders).length : ℤ)⟩).progress,
       none⟩ := by
  simp only [convenienceIter]
  rw [hfat]

theorem convenienceIter_eq_some {Ctx Inst E F : Type}
    (err : Plugin → Ctx → Option Inst → Except F (Option E))
    (pairsOf : List Plugin → List (Plugin × Option Inst))
    (freshCtx : Ctx) (context : Option Ctx) (plugins : List Plugin)
    (targets : List String) (orders : List ℚ) (registry0 : Finset String)
    (f : F)
    (hfat : (runStages err pairsOf (context.getD freshCtx)
      (stagesOf (ordersFiltered (activePlugins plugins) orders) orders)
      ⟨none, ∅⟩
      ⟨0, ((ordersFiltered (activePlugins plugins) orders).length : ℤ)⟩).fatal
        = some f) :
    convenienceIter err pairsOf freshCtx context plugins targets orders registry0 =
      ⟨(runStages err pairsOf (context.getD freshCtx)
          (stagesOf (ordersFiltered (activePlugins plugins) orders) orders)
          ⟨none, ∅⟩
          ⟨0, ((ordersFiltered (activePlugins plugins) orders).length : ℤ)⟩).items,
       (if targets.isEmpty then ["default"] else targets).foldl
         (fun r t => insert t r) registry0,
       (runStages err pairsOf (context.getD freshCtx)
          (stagesOf (ordersFiltered (activePlugins plugins) orders) orders)
          ⟨none, ∅⟩
          ⟨0, ((ordersFiltered (activePlugins plugins) orders).length : ℤ)⟩).state,
       (runStages err pairsOf (context.getD freshCtx)
          (stagesOf (ordersFiltered (activePlugins plugins) orders) orders)
          ⟨none, ∅⟩
          ⟨0, ((ordersFiltered (activePlugins plugins) orders).length : ℤ)⟩).progress,
       some f⟩ := by
  simp only [convenienceIter]
  rw [hfat]

theorem gatedCheckpoints_stagesOf {Ctx : Type} (plugins : List Plugin)
    (orders : List ℚ) (ctx : Ctx) :
    gatedCheckpoints (stagesOf plugins orders) ctx =
      (if stageGate orders CollectorOrder = true
        then [("collected", some ctx)] else []) ++
      (if stageGate orders ValidatorOrder = true
        then [("validated", some ctx)] else []) ++
      (if stageGate orders ExtractorOrder = true
        then [("extracted", some ctx)] else []) ++
      (if stageGate orders IntegratorOrder = true
        then [("integrated", some ctx)] else []) := by
  cases h1 : stageGate orders CollectorOrder <;>
    cases h2 : stageGate orders ValidatorOrder <;>
      cases h3 : stageGate orders ExtractorOrder <;>
        cases h4 : stageGate orders IntegratorOrder <;>
          simp [gatedCheckpoints, stagesOf, List.filter_cons, h1, h2, h3, h4,
            List.filterMap_cons]

theorem gatedPairs_stagesOf {Inst : Type}
    (pairsOf : List Plugin → List (Plugin × Option Inst))
    (plugins : List Plugin) (orders : List ℚ) :
    gatedPairs pairsOf (stagesOf plugins orders) =
      pairsOf (plugins.filter precollectFilter) ++
      (if stageGate orders CollectorOrder = true
        then pairsOf (plugins.filter collectFilter) else []) ++
      (if stageGate orders ValidatorOrder = true
        then pairsOf (plugins.filter validateFilter) else []) ++
      (if stageGate orders ExtractorOrder = true
        then pairsOf (plugins.filter extractFilter) else []) ++
      (if stageGate orders IntegratorOrder = true
        then pairsOf (plugins.filter integrateFilter) else []) ++
      pairsOf (plugins.filter postintegrateFilter) := by
  cases h1 : stageGate orders CollectorOrder <;>
    cases h2 : stageGate orders ValidatorOrder <;>
      cases h3 : stageGate orders ExtractorOrder <;>
        cases h4 : stageGate orders IntegratorOrder <;>
          simp [gatedPairs, stagesOf, List.filter_cons, h1, h2, h3, h4,
            List.append_assoc]

theorem gatedLength_stagesOf_eq (plugins : List Plugin) (orders : List ℚ) :
    gatedLength (stagesOf plugins orders) =
      (plugins.filter precollectFilter).length +
      (if stageGate orders CollectorOrder = true
        then (plugins.filter collectFilter).length else 0) +
      (if stageGate orders ValidatorOrder = true
        then (plugins.filter validateFilter).length else 0) +
      (if stageGate orders ExtractorOrder = true
        then (plugins.filter extractFilter).length else 0) +
      (if stageGate orders IntegratorOrder = true
        then (plugins.filter integrateFilter).length else 0) +
      (plugins.filter postintegrateFilter).length := by
  cases h1 : stageGate orders CollectorOrder <;>
    cases h2 : stageGate orders ValidatorOrder <;>
      cases h3 : stageGate orders ExtractorOrder <;>
        cases h4 : stageGate orders IntegratorOrder <;>
          (simp [gatedLength, stagesOf, List.filter_cons, h1, h2, h3, h4]; try omega)

theorem inrange_named_inj {x a b : ℚ} (ha : a ∈ namedOrders) (hb : b ∈ namedOrders)
    (hxa : inrange x a = true) (hxb : inrange x b = true) : a = b := by
  rw [inrange_iff] at hxa hxb
  simp [namedOrders, CollectorOrder, ValidatorOrder, ExtractorOrder,
    IntegratorOrder] at ha hb
  obtain ⟨hxa1, hxa2⟩ := hxa
  obtain ⟨hxb1, hxb2⟩ := hxb
  rcases ha with rfl | rfl | rfl | rfl <;> rcases hb with rfl | rfl | rfl | rfl <;>
    first
    | rfl
    | (exfalso; linarith)

theorem named_bounds {o : ℚ} (h : o ∈ namedOrders) : 0 ≤ o ∧ o ≤ 3 := by
  simp [namedOrders, CollectorOrder, ValidatorOrder, ExtractorOrder,
    IntegratorOrder] at h
  rcases h with rfl | rfl | rfl | rfl <;> norm_num

theorem ordersFiltered_sub {l : List Plugin} {orders : List ℚ} {p : Plugin}
    (h : p ∈ ordersFiltered l orders) : p ∈ l := by
  unfold ordersFiltered at h
  by_cases ho : orders.isEmpty
  · rw [if_pos ho] at h
    exact h
  · rw [if_neg ho] at h
    exact (List.mem_filter.mp h).1

theorem ordersFiltered_witness {l : List Plugin} {orders : List ℚ} {p : Plugin}
    (h : p ∈ ordersFiltered l orders) (ho : ¬orders.isEmpty = true) :
    ∃ o ∈ orders, inrange p.order o = true := by
  unfold ordersFiltered at h
  rw [if_neg ho] at h
  have := (List.mem_filter.mp h).2
  rw [List.any_eq_true] at this
  exact this

theorem activePlugins_active {l : List Plugin} {p : Plugin}
    (h : p ∈ activePlugins l) : p.active = true :=
  (List.mem_filter.mp h).2

theorem stagesOf_bucket_sub {plugins : List Plugin} {orders : List ℚ} {s : Stage}
    (hs : s ∈ stagesOf plugins orders) : ∀ p ∈ s.bucket, p ∈ plugins := by
  simp only [stagesOf, List.mem_cons, List.mem_singleton] at hs
  rcases hs with rfl | rfl | rfl | rfl | rfl | rfl | h
  · exact fun p hp => (List.mem_filter.mp hp).1
  · exact fun p hp => (List.mem_filter.mp hp).1
  · exact fun p hp => (List.mem_filter.mp hp).1
  · exact fun p hp => (List.mem_filter.mp hp).1
  · exact fun p hp => (List.mem_filter.mp hp).1
  · exact fun p hp => (List.mem_filter.mp hp).1
  · exact absurd h (by simp)

theorem canonicalPairs_valid {Inst : Type} :
    PairsValid (canonicalPairs : List Plugin → List (Plugin × Option Inst)) := by
  intro bucket pr hpr
  simp only [canonicalPairs, List.mem_map] at hpr
  obtain ⟨p, hp, hpe⟩ := hpr
  rw [← hpe]
  exact hp

theorem frac_mem_unit {c t : ℤ} (h0 : 0 ≤ c) (h1 : c ≤ t) :
    0 ≤ (c : ℚ) / (t : ℚ) ∧ (c : ℚ) / (t : ℚ) ≤ 1 := by
  have ht : 0 ≤ t := le_trans h0 h1
  constructor
  · exact div_nonneg (by exact_mod_cast h0) (by exact_mod_cast ht)
  · rcases eq_or_lt_of_le ht with h | h
    · rw [← h]
      norm_num
    · rw [div_le_one (by exact_mod_cast h)]
      exact_mod_cast h1

theorem gatedLength_le (plugins : List Plugin) (orders : List ℚ) :
    gatedLength (stagesOf plugins orders) ≤ plugins.length := by
  rw [gatedLength_stagesOf_eq]
  have hsum := six_filter_length_sum plugins
  split_ifs <;> omega

theorem gatedLength_stagesOf_full (plugins : List Plugin) (orders : List ℚ)
    (hords : ∀ o ∈ orders, o ∈ namedOrders)
    (hsurv : ∀ p ∈ plugins, orders.isEmpty = true ∨
      ∃ o ∈ orders, inrange p.order o = true) :
    gatedLength (stagesOf plugins orders) = plugins.length := by
  rw [gatedLength_stagesOf_eq]
  have hsum := six_filter_length_sum plugins
  by_cases ho : orders.isEmpty
  · have hg : ∀ b : ℚ, stageGate orders b = true := by
      intro b
      simp [stageGate, ho]
    rw [if_pos (hg _), if_pos (hg _), if_pos (hg _), if_pos (hg _)]
    omega
  · have hsurv2 : ∀ p ∈ plugins, ∃ o ∈ orders, inrange p.order o = true := by
      intro p hp
      rcases hsurv p hp with h | h
      · exact absurd h ho
      · exact h
    have hpre : (plugins.filter precollectFilter).length = 0 := by
      rw [List.length_eq_zero, List.filter_eq_nil_iff]
      intro p hp hfil
      obtain ⟨o, hoo, hio⟩ := hsurv2 p hp
      have hb := named_bounds (hords o hoo)
      have h1 := precollectFilter_iff.mp hfil
      have h2 := (inrange_iff.mp hio).1
      linarith [hb.1]
    have hpost : (plugins.filter postintegrateFilter).length = 0 := by
      rw [List.length_eq_zero, List.filter_eq_nil_iff]
      intro p hp hfil
      obtain ⟨o, hoo, hio⟩ := hsurv2 p hp
      have hb := named_bounds (hords o hoo)
      have h1 := postintegrateFilter_iff.mp hfil
      have h2 := (inrange_iff.mp hio).2
      linarith [hb.2]
    have hstage : ∀ b : ℚ, b ∈ namedOrders → stageGate orders b = false →
        ∀ p ∈ plugins, inrange p.order b = false := by
      intro b hbn hgate p hp
      rcases hib : inrange p.order b with _ | _
      · rfl
      · exfalso
        obtain ⟨o, hoo, hio⟩ := hsurv2 p hp
        have heqb : o = b := inrange_named_inj (hords o hoo) hbn hio hib
        subst heqb
        simp [stageGate, ho] at hgate
        exact hgate hoo
    have hgatelen : ∀ b : ℚ, b ∈ namedOrders →
        (fil : Plugin → Bool) → (∀ p, fil p = inrange p.order b) →
        (if stageGate orders b = true then (plugins.filter fil).length else 0)
          = (plugins.filter fil).length := by
      intro b hbn fil hfil
      by_cases hgate : stageGate orders b = true
      · rw [if_pos hgate]
      · rw [if_neg hgate]
        have hz : (plugins.filter fil).length = 0 := by
          rw [List.length_eq_zero, List.filter_eq_nil_iff]
          intro p hp hfp
          have := hstage b hbn (by simpa using hgate) p hp
          rw [hfil p] at hfp
          rw [hfp] at this
          exact absurd this (by simp)
        omega
    rw [hgatelen CollectorOrder (by simp [namedOrders]) collectFilter (fun p => rfl),
      hgatelen ValidatorOrder (by simp [namedOrders]) validateFilter (fun p => rfl),
      hgatelen ExtractorOrder (by simp [namedOrders]) extractFilter (fun p => rfl),
      hgatelen IntegratorOrder (by simp [namedOrders]) integrateFilter (fun p => rfl)]
    omega

/-- C8: for every run driven to completion, every requested target label that
was not in the target registry before the run is absent from the registry
afterwards, and every label registered before the run remains registered —
membership in the registry after the run coincides with membership before. -/
theorem target_registry_restored {Ctx Inst E F : Type}
    (f0 : Plugin → Ctx → Option Inst → Option E)
    (pairsOf : List Plugin → List (Plugin × Option Inst))
    (freshCtx : Ctx) (context : Option Ctx) (plugins : List Plugin)
    (targets : List String) (orders : List ℚ) (registry0 : Finset String)
    (t : String) :
    (t ∈ (convenienceIter
        (okOracle f0 : Plugin → Ctx → Option Inst → Except F (Option E))
        pairsOf freshCtx context plugins targets orders registry0).registry ↔
      t ∈ registry0) := by
  rw [convenienceIter_eq_none (okOracle f0) pairsOf freshCtx context plugins
    targets orders registry0 (runStages_okOracle_fatal f0 pairsOf _ _ _ _)]
  dsimp only
  rw [mem_deregFold, mem_regFold]
  tauto

/-- C3 (counterexample): with no plugins at all and no orders restriction,
every bucket is zero-length, yet the run emits all four checkpoints — the
claim that a zero-length stage emits no checkpoint is false on the code. -/
theorem empty_buckets_checkpoints_cex :
    ordersFiltered (activePlugins ([] : List Plugin)) [] = [] ∧
    checkpointsOf (convenienceIter
      (okOracle noErr : Plugin → Bool → Option Bool → Except Bool (Option Bool))
      canonicalPairs true none [] [] [] ∅).items =
      [("collected", some true), ("validated", some true),
       ("extracted", some true), ("integrated", some true)] := by
  constructor
  · rfl
  · rfl

/-- C3 (amended): each of the checkpoints `collected`, `validated`,
`extracted`, `integrated` fires at most once per run, and fires exactly when
its stage's gate passes (no orders restriction was given, or the stage's
boundary is among the requested orders) — independent of whether the stage's
bucket is empty; a zero-length gated-in bucket still emits its checkpoint. -/
theorem checkpoints_iff_gate {Ctx Inst E F : Type}
    (f0 : Plugin → Ctx → Option Inst → Option E)
    (pairsOf : List Plugin → List (Plugin × Option Inst))
    (freshCtx : Ctx) (context : Option Ctx) (plugins : List Plugin)
    (targets : List String) (orders : List ℚ) (registry0 : Finset String) :
    checkpointsOf (convenienceIter
      (okOracle f0 : Plugin → Ctx → Option Inst → Except F (Option E))
      pairsOf freshCtx context plugins targets orders registry0).items =
      (if stageGate orders CollectorOrder = true
        then [("collected", some (context.getD freshCtx))] else []) ++
      (if stageGate orders ValidatorOrder = true
        then [("validated", some (context.getD freshCtx))] else []) ++
      (if stageGate orders ExtractorOrder = true
        then [("extracted", some (context.getD freshCtx))] else []) ++
      (if stageGate orders IntegratorOrder = true
        then [("integrated", some (context.getD freshCtx))] else []) := by
  rw [convenienceIter_eq_none (okOracle f0) pairsOf freshCtx context plugins
    targets orders registry0 (runStages_okOracle_fatal f0 pairsOf _ _ _ _)]
  dsimp only
  rw [runStages_checkpoints, gatedCheckpoints_stagesOf]

/-- C9: when the caller omits the context, `publish_iter` processes the
plugins against a freshly created context (all stage checkpoints carry it),
but the final `published` checkpoint is emitted with the caller-supplied
value `none`; the two coincide exactly when the caller supplies a context,
as the eager `publish` wrapper does by resolving the context first. -/
theorem published_checkpoint_context {Ctx Inst E F : Type}
    (f0 : Plugin → Ctx → Option Inst → Option E)
    (pairsOf : List Plugin → List (Plugin × Option Inst))
    (freshCtx : Ctx) (c : Ctx) (plugins : List Plugin)
    (targets : List String) (orders : List ℚ) (registry0 : Finset String) :
    (checkpointsOf (publishIter
        (okOracle f0 : Plugin → Ctx → Option Inst → Except F (Option E))
        pairsOf freshCtx none plugins targets orders registry0).items =
      gatedCheckpoints
        (stagesOf (ordersFiltered (activePlugins plugins) orders) orders) freshCtx ++
      [("published", (none : Option Ctx))]) ∧
    (checkpointsOf (publishIter
        (okOracle f0 : Plugin → Ctx → Option Inst → Except F (Option E))
        pairsOf freshCtx (some c) plugins targets orders registry0).items =
      gatedCheckpoints
        (stagesOf (ordersFiltered (activePlugins plugins) orders) orders) c ++
      [("published", some c)]) ∧
    (checkpointsOf (publish
        (okOracle f0 : Plugin → Ctx → Option Inst → Except F (Option E))
        pairsOf freshCtx none plugins targets orders registry0).items =
      gatedCheckpoints
        (stagesOf (ordersFiltered (activePlugins plugins) orders) orders) freshCtx ++
      [("published", some freshCtx)]) := by
  refine ⟨?_, ?_, ?_⟩
  · simp only [publishIter]
    rw [convenienceIter_eq_none (okOracle f0) pairsOf freshCtx none plugins
      targets orders registry0 (runStages_okOracle_fatal f0 pairsOf _ _ _ _)]
    dsimp only
    rw [checkpointsOf_append, runStages_checkpoints, checkpointsOf_cons_checkpoint]
    rfl
  · simp only [publishIter]
    rw [convenienceIter_eq_none (okOracle f0) pairsOf freshCtx (some c) plugins
      targets orders registry0 (runStages_okOracle_fatal f0 pairsOf _ _ _ _)]
    dsimp only
    rw [checkpointsOf_append, runStages_checkpoints, checkpointsOf_cons_checkpoint]
    rfl
  · simp only [publish, publishIter]
    rw [convenienceIter_eq_none (okOracle f0) pairsOf freshCtx
      (some ((none : Option Ctx).getD freshCtx)) plugins
      targets orders registry0 (runStages_okOracle_fatal f0 pairsOf _ _ _ _)]
    dsimp only
    rw [checkpointsOf_append, runStages_checkpoints, checkpointsOf_cons_checkpoint]
    rfl

/-- C7: for every (plugin, target) pair executed, the run yields exactly one
result record per pair across all processed stages (the orchestrator recovers
from plugin errors and never re-raises: the run completes with no fatal
exception); when a result carries a non-absent error, the plugin's order is
recorded in `ordersWithError` of the final scheduling state and the error is
surfaced as data on the record plus a diagnostic print item. -/
theorem plugin_errors_recovered {Ctx Inst E F : Type}
    (f0 : Plugin → Ctx → Option Inst → Option E)
    (pairsOf : List Plugin → List (Plugin × Option Inst))
    (freshCtx : Ctx) (context : Option Ctx) (plugins : List Plugin)
    (targets : List String) (orders : List ℚ) (registry0 : Finset String) :
    ((resultsOf (convenienceIter
        (okOracle f0 : Plugin → Ctx → Option Inst → Except F (Option E))
        pairsOf freshCtx context plugins targets orders registry0).items).map
      (fun r => (r.plug, r.inst)) =
      gatedPairs pairsOf
        (stagesOf (ordersFiltered (activePlugins plugins) orders) orders)) ∧
    (convenienceIter
        (okOracle f0 : Plugin → Ctx → Option Inst → Except F (Option E))
        pairsOf freshCtx context plugins targets orders registry0).fatal = none ∧
    ∀ r ∈ resultsOf (convenienceIter
        (okOracle f0 : Plugin → Ctx → Option Inst → Except F (Option E))
        pairsOf freshCtx context plugins targets orders registry0).items,
      (r.error.isSome = true →
        r.plug.order ∈ (convenienceIter
          (okOracle f0 : Plugin → Ctx → Option Inst → Except F (Option E))
          pairsOf freshCtx context plugins targets orders
          registry0).state.ordersWithError) ∧
      ∀ e, r.error = some e →
        Item.printed e ∈ (convenienceIter
          (okOracle f0 : Plugin → Ctx → Option Inst → Except F (Option E))
          pairsOf freshCtx context plugins targets orders registry0).items := by
  rw [convenienceIter_eq_none (okOracle f0) pairsOf freshCtx context plugins
    targets orders registry0 (runStages_okOracle_fatal f0 pairsOf _ _ _ _)]
  dsimp only
  refine ⟨runStages_results f0 pairsOf _ _ _ _, rfl, ?_⟩
  exact runStages_errors (okOracle f0) pairsOf _ _ _ _

/-- C10: plugins whose `active` flag is false are excluded entirely: no
yielded result record references an inactive plugin (every yielded record's
plugin is active), and `Progress.total` counts only the plugins surviving
the active/orders filters. -/
theorem inactive_plugins_excluded {Ctx Inst E F : Type}
    (err : Plugin → Ctx → Option Inst → Except F (Option E))
    (pairsOf : List Plugin → List (Plugin × Option Inst))
    (hP : PairsValid pairsOf)
    (freshCtx : Ctx) (context : Option Ctx) (plugins : List Plugin)
    (targets : List String) (orders : List ℚ) (registry0 : Finset String)
    (p : Plugin) (hinact : p.active = false) :
    (∀ r ∈ resultsOf (convenienceIter err pairsOf freshCtx context plugins
        targets orders registry0).items,
      r.plug.active = true ∧ r.plug ≠ p) ∧
    (convenienceIter err pairsOf freshCtx context plugins targets orders
      registry0).progress.total =
      ((ordersFiltered (activePlugins plugins) orders).length : ℤ) := by
  have hres : ∀ r ∈ resultsOf (runStages err pairsOf (context.getD freshCtx)
      (stagesOf (ordersFiltered (activePlugins plugins) orders) orders)
      ⟨none, ∅⟩
      ⟨0, ((ordersFiltered (activePlugins plugins) orders).length : ℤ)⟩).items,
      r.plug.active = true ∧ r.plug ≠ p := by
    intro r hr
    obtain ⟨s, hs, _, hpair⟩ := runStages_items_mem err pairsOf
      (context.getD freshCtx)
      (stagesOf (ordersFiltered (activePlugins plugins) orders) orders)
      ⟨none, ∅⟩
      ⟨0, ((ordersFiltered (activePlugins plugins) orders).length : ℤ)⟩ r hr
    have hplug : r.plug ∈ s.bucket := hP s.bucket _ hpair
    have hsurv := stagesOf_bucket_sub hs _ hplug
    have hact := activePlugins_active (ordersFiltered_sub hsurv)
    refine ⟨hact, fun he => ?_⟩
    rw [he, hinact] at hact
    exact absurd hact (by simp)
  have htot := (runStages_spec err pairsOf (context.getD freshCtx) hP
    (stagesOf (ordersFiltered (activePlugins plugins) orders) orders)
    ⟨none, ∅⟩
    ⟨0, ((ordersFiltered (activePlugins plugins) orders).length : ℤ)⟩
    (by exact Int.ofNat_nonneg _)).1
  rcases hfat : (runStages err pairsOf (context.getD freshCtx)
      (stagesOf (ordersFiltered (activePlugins plugins) orders) orders)
      ⟨none, ∅⟩
      ⟨0, ((ordersFiltered (activePlugins plugins) orders).length : ℤ)⟩).fatal
    with _ | f
  · rw [convenienceIter_eq_none err pairsOf freshCtx context plugins targets
      orders registry0 hfat]
    dsimp only
    exact ⟨hres, htot⟩
  · rw [convenienceIter_eq_some err pairsOf freshCtx context plugins targets
      orders registry0 f hfat]
    dsimp only
    exact ⟨hres, htot⟩

/-- C10 (witness): a run over a single inactive plugin yields no record
referencing it and counts a total of zero. -/
theorem inactive_plugins_excluded_witness :
    PairsValid (canonicalPairs : List Plugin → List (Plugin × Option Bool)) ∧
    pOff.active = false ∧
    ((∀ r ∈ resultsOf (convenienceIter
        (okOracle noErr : Plugin → Bool → Option Bool → Except Bool (Option Bool))
        canonicalPairs true none [pOff] [] [] ∅).items,
      r.plug.active = true ∧ r.plug ≠ pOff) ∧
    (convenienceIter
        (okOracle noErr : Plugin → Bool → Option Bool → Except Bool (Option Bool))
        canonicalPairs true none [pOff] [] [] ∅).progress.total =
      ((ordersFiltered (activePlugins [pOff]) []).length : ℤ)) :=
  ⟨canonicalPairs_valid, rfl,
    inactive_plugins_excluded (okOracle noErr) canonicalPairs canonicalPairs_valid
      true none [pOff] [] [] ∅ pOff rfl⟩

/-- C5: the `progress` fraction attached to each yielded result record lies
in the interval from 0 to 1, and the sequence of attached fractions is
non-decreasing across the entire result sequence of the run. -/
theorem progress_fractions_monotone {Ctx Inst E F : Type}
    (err : Plugin → Ctx → Option Inst → Except F (Option E))
    (pairsOf : List Plugin → List (Plugin × Option Inst))
    (hP : PairsValid pairsOf)
    (freshCtx : Ctx) (context : Option Ctx) (plugins : List Plugin)
    (targets : List String) (orders : List ℚ) (registry0 : Finset String) :
    List.Chain' (· ≤ ·) (progressFracs (convenienceIter err pairsOf freshCtx
      context plugins targets orders registry0).items) ∧
    ∀ q ∈ progressFracs (convenienceIter err pairsOf freshCtx context plugins
      targets orders registry0).items, 0 ≤ q ∧ q ≤ 1 := by
  obtain ⟨s1, s2, s3, s4, s5, s6⟩ := runStages_spec err pairsOf
    (context.getD freshCtx)
    hP (stagesOf (ordersFiltered (activePlugins plugins) orders) orders)
    ⟨none, ∅⟩
    ⟨0, ((ordersFiltered (activePlugins plugins) orders).length : ℤ)⟩
    (by exact Int.ofNat_nonneg _)
  obtain ⟨hchain, hbound⟩ := s6
  have hgl := gatedLength_le (ordersFiltered (activePlugins plugins) orders) orders
  have hcore : ∀ q ∈ progressFracs (runStages err pairsOf (context.getD freshCtx)
      (stagesOf (ordersFiltered (activePlugins plugins) orders) orders)
      ⟨none, ∅⟩
      ⟨0, ((ordersFiltered (activePlugins plugins) orders).length : ℤ)⟩).items,
      0 ≤ q ∧ q ≤ 1 := by
    intro q hq
    obtain ⟨c, hq1, hq2, hq3⟩ := hbound q hq
    have h0c : (0 : ℤ) ≤ c := hq2
    have hup : c ≤ ((ordersFiltered (activePlugins plugins) orders).length : ℤ) := by
      have : (runStages err pairsOf (context.getD freshCtx)
          (stagesOf (ordersFiltered (activePlugins plugins) orders) orders)
          ⟨none, ∅⟩
          ⟨0, ((ordersFiltered (activePlugins plugins) orders).length : ℤ)⟩
          ).progress.current ≤
          (0 : ℤ) + (gatedLength (stagesOf (ordersFiltered (activePlugins plugins)
            orders) orders) : ℤ) := s4
      omega
    rw [hq1]
    exact frac_mem_unit h0c hup
  rcases hfat : (runStages err pairsOf (context.getD freshCtx)
      (stagesOf (ordersFiltered (activePlugins plugins) orders) orders)
      ⟨none, ∅⟩
      ⟨0, ((ordersFiltered (activePlugins plugins) orders).length : ℤ)⟩).fatal
    with _ | f
  · rw [convenienceIter_eq_none err pairsOf freshCtx context plugins targets
      orders registry0 hfat]
    dsimp only
    exact ⟨hchain, hcore⟩
  · rw [convenienceIter_eq_some err pairsOf freshCtx context plugins targets
      orders registry0 f hfat]
    dsimp only
    exact ⟨hchain, hcore⟩

/-- C5 (witness): a two-plugin run with one failing validator attaches the
fractions 1/2 and 1, non-decreasing and within the unit interval. -/
theorem progress_fractions_monotone_witness :
    PairsValid (canonicalPairs : List Plugin → List (Plugin × Option Bool)) ∧
    (List.Chain' (· ≤ ·) (progressFracs (convenienceIter
        (okOracle badErr : Plugin → Bool → Option Bool → Except Bool (Option Bool))
        canonicalPairs true none [pCol, pBad] [] [] ∅).items) ∧
    ∀ q ∈ progressFracs (convenienceIter
        (okOracle badErr : Plugin → Bool → Option Bool → Except Bool (Option Bool))
        canonicalPairs true none [pCol, pBad] [] [] ∅).items, 0 ≤ q ∧ q ≤ 1) :=
  ⟨canonicalPairs_valid,
    progress_fractions_monotone (okOracle badErr) canonicalPairs
      canonicalPairs_valid true none [pCol, pBad] [] [] ∅⟩

/-- C2: when the requested orders are (a subset of) the four named stage
boundaries, driving the full result sequence to exhaustion ends with
`Progress.current` equal to `Progress.total` — even when the boundary
restriction skips stages and when the Pairing Iterator yields pairs for
fewer distinct plugins than a bucket's declared size — and every fraction
`current / total` observed at a yield lies between 0 and 1, so
`0 ≤ current ≤ total` holds at every observation point of the run. -/
theorem progress_completion {Ctx Inst E F : Type}
    (f0 : Plugin → Ctx → Option Inst → Option E)
    (pairsOf : List Plugin → List (Plugin × Option Inst))
    (hP : PairsValid pairsOf)
    (freshCtx : Ctx) (context : Option Ctx) (plugins : List Plugin)
    (targets : List String) (orders : List ℚ) (registry0 : Finset String)
    (hords : ∀ o ∈ orders, o ∈ namedOrders) :
    (convenienceIter
        (okOracle f0 : Plugin → Ctx → Option Inst → Except F (Option E))
        pairsOf freshCtx context plugins targets orders registry0).progress.current =
      (convenienceIter
        (okOracle f0 : Plugin → Ctx → Option Inst → Except F (Option E))
        pairsOf freshCtx context plugins targets orders registry0).progress.total ∧
    ∀ q ∈ progressFracs (convenienceIter
        (okOracle f0 : Plugin → Ctx → Option Inst → Except F (Option E))
        pairsOf freshCtx context plugins targets orders registry0).items,
      0 ≤ q ∧ q ≤ 1 := by
  obtain ⟨s1, s2, s3, s4, s5, s6⟩ := runStages_spec
    (okOracle f0 : Plugin → Ctx → Option Inst → Except F (Option E)) pairsOf
    (context.getD freshCtx)
    hP (stagesOf (ordersFiltered (activePlugins plugins) orders) orders)
    ⟨none, ∅⟩
    ⟨0, ((ordersFiltered (activePlugins plugins) orders).length : ℤ)⟩
    (by exact Int.ofNat_nonneg _)
  obtain ⟨hchain, hbound⟩ := s6
  have hfatn : (runStages
      (okOracle f0 : Plugin → Ctx → Option Inst → Except F (Option E)) pairsOf
      (context.getD freshCtx)
      (stagesOf (ordersFiltered (activePlugins plugins) orders) orders)
      ⟨none, ∅⟩
      ⟨0, ((ordersFiltered (activePlugins plugins) orders).length : ℤ)⟩).fatal
      = none :=
    runStages_okOracle_fatal f0 pairsOf _ _ _ _
  have hglfull : gatedLength (stagesOf (ordersFiltered (activePlugins plugins)
      orders) orders) = (ordersFiltered (activePlugins plugins) orders).length := by
    refine gatedLength_stagesOf_full _ _ hords ?_
    intro p hp
    by_cases he : orders.isEmpty = true
    · exact Or.inl he
    · exact Or.inr (ordersFiltered_witness hp he)
  have hcurr := s5 hfatn
  have hgl := gatedLength_le (ordersFiltered (activePlugins plugins) orders) orders
  have s4' : (runStages
      (okOracle f0 : Plugin → Ctx → Option Inst → Except F (Option E)) pairsOf
      (context.getD freshCtx)
      (stagesOf (ordersFiltered (activePlugins plugins) orders) orders)
      ⟨none, ∅⟩
      ⟨0, ((ordersFiltered (activePlugins plugins) orders).length : ℤ)⟩).progress.current ≤
      0 + (gatedLength (stagesOf (ordersFiltered (activePlugins plugins) orders)
        orders) : ℤ) := s4
  have hcurr' : (runStages
      (okOracle f0 : Plugin → Ctx → Option Inst → Except F (Option E)) pairsOf
      (context.getD freshCtx)
      (stagesOf (ordersFiltered (activePlugins plugins) orders) orders)
      ⟨none, ∅⟩
      ⟨0, ((ordersFiltered (activePlugins plugins) orders).length : ℤ)⟩).progress.current =
      0 + (gatedLength (stagesOf (ordersFiltered (activePlugins plugins) orders)
        orders) : ℤ) := hcurr
  have s1' : (runStages
      (okOracle f0 : Plugin → Ctx → Option Inst → Except F (Option E)) pairsOf
      (context.getD freshCtx)
      (stagesOf (ordersFiltered (activePlugins plugins) orders) orders)
      ⟨none, ∅⟩
      ⟨0, ((ordersFiltered (activePlugins plugins) orders).length : ℤ)⟩).progress.total =
      ((ordersFiltered (activePlugins plugins) orders).length : ℤ) := s1
  have hcore : ∀ q ∈ progressFracs (runStages
      (okOracle f0 : Plugin → Ctx → Option Inst → Except F (Option E)) pairsOf
      (context.getD freshCtx)
      (stagesOf (ordersFiltered (activePlugins plugins) orders) orders)
      ⟨none, ∅⟩
      ⟨0, ((ordersFiltered (activePlugins plugins) orders).length : ℤ)⟩).items,
      0 ≤ q ∧ q ≤ 1 := by
    intro q hq
    obtain ⟨c, hq1, hq2, hq3⟩ := hbound q hq
    have h0c : (0 : ℤ) ≤ c := hq2
    have hup : c ≤ ((ordersFiltered (activePlugins plugins) orders).length : ℤ) := by
      omega
    rw [hq1]
    exact frac_mem_unit h0c hup
  rw [convenienceIter_eq_none
    (okOracle f0 : Plugin → Ctx → Option Inst → Except F (Option E))
    pairsOf freshCtx context plugins targets orders registry0 hfatn]
  dsimp only
  constructor
  · rw [hcurr', s1', hglfull]
    omega
  · exact hcore

/-- C2 (witness): restricting a collector-plus-validator plugin set to the
Validate boundary still drives `current` to `total`. -/
theorem progress_completion_witness :
    PairsValid (canonicalPairs : List Plugin → List (Plugin × Option Bool)) ∧
    (∀ o ∈ ([ValidatorOrder] : List ℚ), o ∈ namedOrders) ∧
    ((convenienceIter
        (okOracle badErr : Plugin → Bool → Option Bool → Except Bool (Option Bool))
        canonicalPairs true none [pCol, pBad] [] [ValidatorOrder] ∅).progress.current =
      (convenienceIter
        (okOracle badErr : Plugin → Bool → Option Bool → Except Bool (Option Bool))
        canonicalPairs true none [pCol, pBad] [] [ValidatorOrder] ∅).progress.total ∧
    ∀ q ∈ progressFracs (convenienceIter
        (okOracle badErr : Plugin → Bool → Option Bool → Except Bool (Option Bool))
        canonicalPairs true none [pCol, pBad] [] [ValidatorOrder] ∅).items,
      0 ≤ q ∧ q ≤ 1) :=
  ⟨canonicalPairs_valid, by simp [namedOrders],
    progress_completion badErr canonicalPairs canonicalPairs_valid
      true none [pCol, pBad] [] [ValidatorOrder] ∅ (by simp [namedOrders])⟩

/-- C1 (counterexample): an active pre-collect plugin (order below the
Collect band) supplied together with the non-empty boundary subset
`[CollectorOrder]` is removed by the orders filter: the run yields no result
records at all, refuting the claim that such plugins are never removed by
the boundary-subset restriction and always execute. -/
theorem precollect_gated_out_cex :
    pPre.active = true ∧
    precollectFilter pPre = true ∧
    ([CollectorOrder] : List ℚ) ≠ [] ∧
    resultsOf (convenienceIter
      (okOracle noErr : Plugin → Bool → Option Bool → Except Bool (Option Bool))
      canonicalPairs true none [pPre] [] [CollectorOrder] ∅).items = [] := by
  refine ⟨rfl, by decide, by decide, ?_⟩
  rfl

/-- C1 (amended): the pre-collect and post-integrate buckets are processed
unconditionally (no orders gate), but the boundary-subset restriction applies
to all plugins, including those outside every named band: when a non-empty
orders list is requested, any plugin whose order is in range of no requested
order is removed before bucketing and yields no result records; the plugins
that survive are fanned out with the pre-collect and post-integrate buckets
unconditionally present and the four named buckets gated. -/
theorem precollect_subject_to_orders_filter {Ctx Inst E F : Type}
    (err : Plugin → Ctx → Option Inst → Except F (Option E))
    (f0 : Plugin → Ctx → Option Inst → Option E)
    (pairsOf : List Plugin → List (Plugin × Option Inst))
    (hP : PairsValid pairsOf)
    (freshCtx : Ctx) (context : Option Ctx) (plugins : List Plugin)
    (targets : List String) (orders : List ℚ) (registry0 : Finset String)
    (p : Plugin) (ho : orders ≠ [])
    (hout : ∀ o ∈ orders, inrange p.order o = false) :
    (∀ r ∈ resultsOf (convenienceIter err pairsOf freshCtx context plugins
        targets orders registry0).items, r.plug ≠ p) ∧
    ((resultsOf (convenienceIter
        (okOracle f0 : Plugin → Ctx → Option Inst → Except F (Option E))
        pairsOf freshCtx context plugins targets orders registry0).items).map
      (fun r => (r.plug, r.inst)) =
      pairsOf ((ordersFiltered (activePlugins plugins) orders).filter
        precollectFilter) ++
      (if stageGate orders CollectorOrder = true
        then pairsOf ((ordersFiltered (activePlugins plugins) orders).filter
          collectFilter) else []) ++
      (if stageGate orders ValidatorOrder = true
        then pairsOf ((ordersFiltered (activePlugins plugins) orders).filter
          validateFilter) else []) ++
      (if stageGate orders ExtractorOrder = true
        then pairsOf ((ordersFiltered (activePlugins plugins) orders).filter
          extractFilter) else []) ++
      (if stageGate orders IntegratorOrder = true
        then pairsOf ((ordersFiltered (activePlugins plugins) orders).filter
          integrateFilter) else []) ++
      pairsOf ((ordersFiltered (activePlugins plugins) orders).filter
        postintegrateFilter)) := by
  constructor
  · have hcore : ∀ r ∈ resultsOf (runStages err pairsOf (context.getD freshCtx)
        (stagesOf (ordersFiltered (activePlugins plugins) orders) orders)
        ⟨none, ∅⟩
        ⟨0, ((ordersFiltered (activePlugins plugins) orders).length : ℤ)⟩).items,
        r.plug ≠ p := by
      intro r hr heq
      obtain ⟨s, hs, _, hpair⟩ := runStages_items_mem err pairsOf
        (context.getD freshCtx)
        (stagesOf (ordersFiltered (activePlugins plugins) orders) orders)
        ⟨none, ∅⟩
        ⟨0, ((ordersFiltered (activePlugins plugins) orders).length : ℤ)⟩ r hr
      have hplug : r.plug ∈ s.bucket := hP s.bucket _ hpair
      have hsurv := stagesOf_bucket_sub hs _ hplug
      have hne : ¬orders.isEmpty = true := by
        simp [List.isEmpty_iff, ho]
      obtain ⟨o, hoo, hio⟩ := ordersFiltered_witness hsurv hne
      rw [heq] at hio
      rw [hout o hoo] at hio
      exact absurd hio (by simp)
    rcases hfat : (runStages err pairsOf (context.getD freshCtx)
        (stagesOf (ordersFiltered (activePlugins plugins) orders) orders)
        ⟨none, ∅⟩
        ⟨0, ((ordersFiltered (activePlugins plugins) orders).length : ℤ)⟩).fatal
      with _ | f
    · rw [convenienceIter_eq_none err pairsOf freshCtx context plugins targets
        orders registry0 hfat]
      dsimp only
      exact hcore
    · rw [convenienceIter_eq_some err pairsOf freshCtx context plugins targets
        orders registry0 f hfat]
      dsimp only
      exact hcore
  · rw [convenienceIter_eq_none
      (okOracle f0 : Plugin → Ctx → Option Inst → Except F (Option E))
      pairsOf freshCtx context plugins targets orders registry0
      (runStages_okOracle_fatal f0 pairsOf _ _ _ _)]
    dsimp only
    rw [runStages_results, gatedPairs_stagesOf]

/-- C1 (witness of the amended claim): the pre-collect plugin of order -2 is
removed by the restriction to the Collect boundary and never referenced. -/
theorem precollect_subject_to_orders_filter_witness :
    PairsValid (canonicalPairs : List Plugin → List (Plugin × Option Bool)) ∧
    ([CollectorOrder] : List ℚ) ≠ [] ∧
    (∀ o ∈ ([CollectorOrder] : List ℚ), inrange pPre.order o = false) ∧
    ((∀ r ∈ resultsOf (convenienceIter
        (okOracle noErr : Plugin → Bool → Option Bool → Except Bool (Option Bool))
        canonicalPairs true none [pPre, pCol] [] [CollectorOrder] ∅).items,
      r.plug ≠ pPre) ∧
    ((resultsOf (convenienceIter
        (okOracle noErr : Plugin → Bool → Option Bool → Except Bool (Option Bool))
        canonicalPairs true none [pPre, pCol] [] [CollectorOrder] ∅).items).map
      (fun r => (r.plug, r.inst)) =
      canonicalPairs ((ordersFiltered (activePlugins [pPre, pCol])
        [CollectorOrder]).filter precollectFilter) ++
      (if stageGate [CollectorOrder] CollectorOrder = true
        then canonicalPairs ((ordersFiltered (activePlugins [pPre, pCol])
          [CollectorOrder]).filter collectFilter) else []) ++
      (if stageGate [CollectorOrder] ValidatorOrder = true
        then canonicalPairs ((ordersFiltered (activePlugins [pPre, pCol])
          [CollectorOrder]).filter validateFilter) else []) ++
      (if stageGate [CollectorOrder] ExtractorOrder = true
        then canonicalPairs ((ordersFiltered (activePlugins [pPre, pCol])
          [CollectorOrder]).filter extractFilter) else []) ++
      (if stageGate [CollectorOrder] IntegratorOrder = true
        then canonicalPairs ((ordersFiltered (activePlugins [pPre, pCol])
          [CollectorOrder]).filter integrateFilter) else []) ++
      canonicalPairs ((ordersFiltered (activePlugins [pPre, pCol])
        [CollectorOrder]).filter postintegrateFilter))) :=
  ⟨canonicalPairs_valid, by decide, by decide,
    precollect_subject_to_orders_filter (okOracle noErr) noErr canonicalPairs
      canonicalPairs_valid true none [pPre, pCol] [] [CollectorOrder] ∅ pPre
      (by decide) (by decide)⟩

/-- C4 (counterexample): an unrecoverable error raised while processing the
collect bucket propagates out of the generator before the deregistration
loop runs: the target `t`, absent from the registry before the run, is still
registered after the aborted run — refuting the claim that deregistration
executes even when a bucket raises. -/
theorem dereg_on_fatal_cex :
    (convenienceIter fatalOracle canonicalPairs true none [pCol] ["t"] [] ∅).fatal
      = some true ∧
    ("t" : String) ∉ (∅ : Finset String) ∧
    "t" ∈ (convenienceIter fatalOracle canonicalPairs true none [pCol] ["t"] []
      ∅).registry := by
  refine ⟨rfl, by decide, ?_⟩
  decide

/-- C4 (amended): the deregistration of targets that were not registered
before the run executes only when the run completes without an unrecoverable
error; when a bucket raises, the exception propagates before the
deregistration loop, leaving exactly the requested targets together with the
previous registrations in the registry. -/
theorem dereg_skipped_on_fatal {Ctx Inst E F : Type}
    (err : Plugin → Ctx → Option Inst → Except F (Option E))
    (pairsOf : List Plugin → List (Plugin × Option Inst))
    (freshCtx : Ctx) (context : Option Ctx) (plugins : List Plugin)
    (targets : List String) (orders : List ℚ) (registry0 : Finset String)
    (f : F)
    (hf : (convenienceIter err pairsOf freshCtx context plugins targets orders
      registry0).fatal = some f) :
    ∀ t : String,
      t ∈ (convenienceIter err pairsOf freshCtx context plugins targets orders
        registry0).registry ↔
      (t ∈ (if targets.isEmpty then ["default"] else targets) ∨ t ∈ registry0) := by
  rcases hfat : (runStages err pairsOf (context.getD freshCtx)
      (stagesOf (ordersFiltered (activePlugins plugins) orders) orders)
      ⟨none, ∅⟩
      ⟨0, ((ordersFiltered (activePlugins plugins) orders).length : ℤ)⟩).fatal
    with _ | f2
  · rw [convenienceIter_eq_none err pairsOf freshCtx context plugins targets
      orders registry0 hfat] at hf
    dsimp only at hf
    exact absurd hf (by simp)
  · rw [convenienceIter_eq_some err pairsOf freshCtx context plugins targets
      orders registry0 f2 hfat]
    dsimp only
    intro t
    rw [mem_regFold]

/-- C4 (witness of the amended claim): the aborted single-collector run
leaves its requested target registered. -/
theorem dereg_skipped_on_fatal_witness :
    (convenienceIter fatalOracle canonicalPairs true none [pCol] ["t"] [] ∅).fatal
      = some true ∧
    (∀ t : String,
      t ∈ (convenienceIter fatalOracle canonicalPairs true none [pCol] ["t"] []
        ∅).registry ↔
      (t ∈ (if (["t"] : List String).isEmpty then ["default"] else ["t"]) ∨
        t ∈ (∅ : Finset String))) :=
  ⟨rfl, dereg_skipped_on_fatal fatalOracle canonicalPairs true none [pCol] ["t"]
    [] ∅ true rfl⟩

end Pyblish
